import Mathlib

/-!
Verification development for the MCQ-ENGINE orchestration core.

The definitions below are a shallow embedding of the JavaScript source:
  - `src/server/services/ai-service.js`: `cleanJSONResponse`,
    `generateWithFallback`, `generateMCQs` (post-parse processing and the
    result cache), `normalizeOptions` / `normalizeMCQ`, `solveMCQs`
    (post-parse processing).
  - `src/server/utils/validators.js` (routes part): the batch computation and
    the streaming loop of the `/generate-mcq` handler.

JavaScript strings are modelled as Lean `String` / `List Char`; the runtime
function `JSON.parse` is modelled by the recursive-descent parser `parseJson`
below (the JSON grammar: a value surrounded by the four JSON whitespace
characters; surrounding whitespace is removed up front, which is equivalent
because no JSON value's text starts or ends with a whitespace character).
Numbers are kept as their source literals (`Json.num lit`), so no floating
point is involved; two parses are equal when they are token-for-token equal,
which is the equality all theorems below use.
-/

/-- The four JSON whitespace characters (also what `String.prototype.trim`
removes on the inputs considered here). -/
def isWsC (c : Char) : Bool := c = ' ' || c = '\t' || c = '\n' || c = '\r'

def isDigitC (c : Char) : Bool := decide ('0' ≤ c) && decide (c ≤ '9')

def isHexC (c : Char) : Bool :=
  isDigitC c || (decide ('a' ≤ c) && decide (c ≤ 'f')) || (decide ('A' ≤ c) && decide (c ≤ 'F'))

def hexVal (c : Char) : Nat :=
  if isDigitC c then c.toNat - '0'.toNat
  else if decide ('a' ≤ c) && decide (c ≤ 'f') then c.toNat - 'a'.toNat + 10
  else c.toNat - 'A'.toNat + 10

/-- Parsed JSON values. `num` keeps the literal text of the number. -/
inductive Json where
  | null : Json
  | bool (b : Bool) : Json
  | num (lit : String) : Json
  | str (s : String) : Json
  | arr (elems : List Json) : Json
  | obj (fields : List (String × Json)) : Json
deriving Repr

def dropWs (l : List Char) : List Char := l.dropWhile isWsC

/-- Prepend one decoded character to a string-body parse result. -/
def consStr (c : Char) (o : Option (List Char × List Char)) :
    Option (List Char × List Char) :=
  match o with
  | some (cs, rest) => some (c :: cs, rest)
  | none => none

/-- Body of a JSON string literal, after the opening quote: the decoded
characters and the input after the closing quote. Escapes are the JSON-legal
ones; a bare control character (below 0x20), a lone backslash or an
unrecognised escape is a parse error, as in `JSON.parse`. -/
def parseStrBody : List Char → Option (List Char × List Char)
  | [] => none
  | '"' :: r => some ([], r)
  | '\\' :: 'u' :: h1 :: h2 :: h3 :: h4 :: r2 =>
    if isHexC h1 && isHexC h2 && isHexC h3 && isHexC h4 then
      consStr (Char.ofNat (((hexVal h1 * 16 + hexVal h2) * 16 + hexVal h3) * 16 + hexVal h4))
        (parseStrBody r2)
    else none
  | '\\' :: e :: r =>
    if e = 'u' then none
    else if e = '"' || e = '\\' || e = '/' then consStr e (parseStrBody r)
    else if e = 'b' then consStr '\x08' (parseStrBody r)
    else if e = 'f' then consStr '\x0c' (parseStrBody r)
    else if e = 'n' then consStr '\n' (parseStrBody r)
    else if e = 'r' then consStr '\r' (parseStrBody r)
    else if e = 't' then consStr '\t' (parseStrBody r)
    else none
  | '\\' :: [] => none
  | c :: r => if 31 < c.toNat then consStr c (parseStrBody r) else none

/-- Fraction part of a number literal: `.digits`, or nothing. -/
def parseFracPart (l : List Char) : Option (List Char × List Char) :=
  match l with
  | '.' :: r =>
    let ds := r.takeWhile isDigitC
    if ds = [] then none else some ('.' :: ds, r.drop ds.length)
  | _ => some ([], l)

/-- Exponent part of a number literal: `e|E (+|-)? digits`, or nothing. -/
def parseExpPart (l : List Char) : Option (List Char × List Char) :=
  match l with
  | c :: r =>
    if c = 'e' || c = 'E' then
      let (sgn, r1) :=
        match r with
        | s :: r2 => if s = '+' || s = '-' then ([s], r2) else (([] : List Char), r)
        | [] => ([], r)
      let ds := r1.takeWhile isDigitC
      if ds = [] then none else some (c :: (sgn ++ ds), r1.drop ds.length)
    else some ([], l)
  | [] => some ([], l)

/-- A JSON number literal: `-? int frac? exp?` with no leading zeros. -/
def parseNum (l : List Char) : Option (Json × List Char) :=
  let (sgn, l1) :=
    match l with
    | '-' :: r => (['-'], r)
    | _ => (([] : List Char), l)
  let ds := l1.takeWhile isDigitC
  if ds = [] then none
  else if 1 < ds.length && ds.head? = some '0' then none
  else
    match parseFracPart (l1.drop ds.length) with
    | none => none
    | some (fr, l2) =>
      match parseExpPart l2 with
      | none => none
      | some (ex, l3) => some (.num (String.mk (sgn ++ ds ++ fr ++ ex)), l3)

def expectLit (lit : List Char) (l : List Char) : Option (List Char) :=
  if lit.isPrefixOf l then some (l.drop lit.length) else none

mutual

/-- A JSON value, by recursive descent. The first argument is fuel: every
recursive call decreases it, and `parseJson` supplies more fuel than any
parse can consume (each nesting level and each array/object element consumes
at least one input character). The input's leading whitespace must already
have been skipped. -/
def parseValue : Nat → List Char → Option (Json × List Char)
  | 0, _ => none
  | _ + 1, [] => none
  | f + 1, c :: r =>
    if c = '"' then
      match parseStrBody r with
      | some (cs, rest) => some (.str (String.mk cs), rest)
      | none => none
    else if c = '\x7b' then
      match dropWs r with
      | '\x7d' :: r2 => some (.obj [], r2)
      | r1 =>
        match parseFields f r1 with
        | some (fs, rest) => some (.obj fs, rest)
        | none => none
    else if c = '[' then
      match dropWs r with
      | ']' :: r2 => some (.arr [], r2)
      | r1 =>
        match parseElems f r1 with
        | some (vs, rest) => some (.arr vs, rest)
        | none => none
    else if c = 't' then
      match expectLit ['r', 'u', 'e'] r with
      | some rest => some (.bool true, rest)
      | none => none
    else if c = 'f' then
      match expectLit ['a', 'l', 's', 'e'] r with
      | some rest => some (.bool false, rest)
      | none => none
    else if c = 'n' then
      match expectLit ['u', 'l', 'l'] r with
      | some rest => some (.null, rest)
      | none => none
    else if c = '-' || isDigitC c then parseNum (c :: r)
    else none

/-- One or more comma-separated array elements followed by `]`. -/
def parseElems : Nat → List Char → Option (List Json × List Char)
  | 0, _ => none
  | f + 1, l =>
    match parseValue f l with
    | none => none
    | some (v, r) =>
      match dropWs r with
      | ',' :: r2 =>
        match parseElems f (dropWs r2) with
        | some (vs, r3) => some (v :: vs, r3)
        | none => none
      | ']' :: r2 => some ([v], r2)
      | _ => none

/-- One or more comma-separated `"key": value` fields followed by `}`. -/
def parseFields : Nat → List Char → Option (List (String × Json) × List Char)
  | 0, _ => none
  | f + 1, l =>
    match l with
    | '"' :: r =>
      match parseStrBody r with
      | none => none
      | some (kcs, r1) =>
        match dropWs r1 with
        | ':' :: r2 =>
          match parseValue f (dropWs r2) with
          | none => none
          | some (v, r3) =>
            match dropWs r3 with
            | ',' :: r4 =>
              match parseFields f (dropWs r4) with
              | some (fs, r5) => some ((String.mk kcs, v) :: fs, r5)
              | none => none
            | '\x7d' :: r4 => some ([(String.mk kcs, v)], r4)
            | _ => none
        | _ => none
    | _ => none

end

/-- Surrounding whitespace removed from both ends (what `trim` does, and what
`JSON.parse` ignores around the value). -/
def trimList (l : List Char) : List Char :=
  ((l.dropWhile isWsC).reverse.dropWhile isWsC).reverse

/-- The model of `JSON.parse` on a character list: strip surrounding
whitespace, parse one value, require the input to be exhausted. -/
def parseJsonL (l : List Char) : Option Json :=
  let t := trimList l
  match parseValue (t.length + 1) t with
  | some (v, []) => some v
  | _ => none

/-- The model of `JSON.parse`: `some` the value on valid JSON text, `none`
when `JSON.parse` would throw. -/
def parseJson (s : String) : Option Json := parseJsonL s.data

/-!
## `cleanJSONResponse` (src/server/services/ai-service.js, lines 145-180)

Step 1 is the two global regex replacements ` ```json\n? ` and ` ```\n? `
followed by `trim`; step 2 tries a strict parse and returns the text
untouched when it succeeds, otherwise doubles every backslash whose
lookahead fails; step 3 repairs a text that does not end in `]` or `}`.
-/

/-- The global replacement of `/```json\n?/` by the empty string: scan left
to right, at a match consume it (greedily taking the optional newline),
otherwise emit one character and continue. -/
def stripTicksJson : List Char → List Char
  | '`' :: '`' :: '`' :: 'j' :: 's' :: 'o' :: 'n' :: '\n' :: rest => stripTicksJson rest
  | '`' :: '`' :: '`' :: 'j' :: 's' :: 'o' :: 'n' :: rest => stripTicksJson rest
  | c :: r => c :: stripTicksJson r
  | [] => []

/-- The global replacement of `/```\n?/` by the empty string. -/
def stripTicks : List Char → List Char
  | '`' :: '`' :: '`' :: '\n' :: rest => stripTicks rest
  | '`' :: '`' :: '`' :: rest => stripTicks rest
  | c :: r => c :: stripTicks r
  | [] => []

/-- The lookahead `(?![bfnrtu"\/]|u[0-9a-fA-F]{4})` of the backslash-fixing
regex, applied to the characters after a backslash: `true` when the
backslash is NOT to be doubled. (The second alternative is subsumed by the
`u` in the character class; it is kept as in the source.) -/
def okEscNext : List Char → Bool
  | c :: r =>
    (c = 'b' || c = 'f' || c = 'n' || c = 'r' || c = 't' || c = 'u' || c = '"' || c = '/')
    || (c = 'u' &&
        (match r with
         | h1 :: h2 :: h3 :: h4 :: _ => isHexC h1 && isHexC h2 && isHexC h3 && isHexC h4
         | _ => false))
  | [] => false

/-- `text.replace(/\\(?![bfnrtu"\/]|u[0-9a-fA-F]{4})/g, '\\\\')`: every
backslash is tested against the characters that follow it in the original
text (the lookahead consumes nothing), and doubled when the test fails. -/
def fixBackslashes : List Char → List Char
  | [] => []
  | '\\' :: r =>
    if okEscNext r then '\\' :: fixBackslashes r
    else '\\' :: '\\' :: fixBackslashes r
  | c :: r => c :: fixBackslashes r

/-- `String.prototype.lastIndexOf` for one character: the index of its last
occurrence, `-1` when absent. -/
def lastIdx (c : Char) : List Char → Int
  | [] => -1
  | x :: xs =>
    let r := lastIdx c xs
    if 0 ≤ r then r + 1 else if x = c then 0 else -1

/-- Occurrences of one character. -/
def countC (c : Char) (l : List Char) : Nat :=
  l.foldr (fun x n => if x = c then n + 1 else n) 0

def endsWithCloser (l : List Char) : Bool :=
  match l.getLast? with
  | some ']' => true
  | some '\x7d' => true
  | _ => false

/-- Step 3 of the sanitizer: append a closing quote when the last `"` comes
after the last `:`, then as many `}` as `{` outnumber `}`, then as many `]`
as `[` outnumber `]` (a negative JavaScript difference runs the loop zero
times, as truncated subtraction does here). -/
def repairTruncated (u : List Char) : List Char :=
  let u1 := if lastIdx '"' u > lastIdx ':' u then u ++ ['"'] else u
  let ob := countC '\x7b' u1 - countC '\x7d' u1
  let obk := countC '[' u1 - countC ']' u1
  u1 ++ List.replicate ob '\x7d' ++ List.replicate obk ']'

/-- `cleanJSONResponse` on character lists. -/
def cleanL (l : List Char) : List Char :=
  let t := trimList (stripTicks (stripTicksJson l))
  if (parseJsonL t).isSome then t
  else
    let u := fixBackslashes t
    if endsWithCloser u then u else repairTruncated u

/-- `cleanJSONResponse` (ai-service.js line 145): empty input maps to the
empty string, otherwise markdown fences are stripped, the text is trimmed,
and repairs are applied only when the strict parse fails. -/
def cleanJSONResponse (s : String) : String :=
  if s.data = [] then "" else String.mk (cleanL s.data)

/-!
## Field normalization (ai-service.js lines 327-387)

`normalizeOptions` and `normalizeMCQ` operate on values that came out of
`JSON.parse`, so JavaScript truthiness, member access and `String(...)`
conversion are modelled for exactly those values.
-/

/-- Is a number literal the number zero (only `0` digits before the
exponent)? Used for JavaScript truthiness of parsed numbers. -/
def numLitIsZero (lit : String) : Bool :=
  (lit.data.takeWhile (fun c => c ≠ 'e' && c ≠ 'E')).all
    (fun c => !(decide ('1' ≤ c) && decide (c ≤ '9')))

/-- JavaScript truthiness of a parsed JSON value. -/
def jsTruthy : Json → Bool
  | .null => false
  | .bool b => b
  | .num lit => !numLitIsZero lit
  | .str s => s ≠ ""
  | .arr _ => true
  | .obj _ => true

/-- Member access `j[k]` on a parsed value: `none` models `undefined`.
`JSON.parse` keeps the last of duplicate keys, hence the reverse lookup. -/
def getField (j : Json) (k : String) : Option Json :=
  match j with
  | .obj fs => fs.foldl (fun acc p => if p.1 = k then some p.2 else acc) none
  | _ => none

/-- `a || d` for `a` a possibly-undefined value and `d` a present default:
the JavaScript value of the whole expression. -/
def jsSel (a : Option Json) (d : Json) : Json :=
  match a with
  | some v => if jsTruthy v then v else d
  | none => d

/-- `a || b` where both sides may be undefined and the falsy fallback value
matters only through its own truthiness. -/
def jsOr (a b : Option Json) : Option Json :=
  match a with
  | some v => if jsTruthy v then some v else b
  | none => b

/-- Is a whole `a || b || c` chain falsy (the `!options` test)? -/
def jsFalsyOpt (o : Option Json) : Bool :=
  match o with
  | some v => !jsTruthy v
  | none => true

mutual

/-- JavaScript `String(x)` on a parsed JSON value (arrays join their
elements' conversions with commas; a number is rendered by its literal,
whose first character — a digit or `-` — is all the callers below inspect). -/
def jsToString : Json → String
  | .null => "null"
  | .bool true => "true"
  | .bool false => "false"
  | .num lit => lit
  | .str s => s
  | .arr es => jsToStrings es
  | .obj _ => "[object Object]"

def jsToStrings : List Json → String
  | [] => ""
  | [x] => jsToString x
  | x :: y :: xs => jsToString x ++ "," ++ jsToStrings (y :: xs)

end

def trimS (s : String) : String := String.mk (trimList s.data)

/-- `normalizeOptions` (ai-service.js line 327). The argument is the value of
`mcq.options || mcq.Options || mcq.choices`, which may be undefined. -/
def normalizeOptions (o : Option Json) : Json :=
  if jsFalsyOpt o then .obj [("A", .str ""), ("B", .str ""), ("C", .str ""), ("D", .str "")]
  else
    match o with
    | none => .obj [("A", .str ""), ("B", .str ""), ("C", .str ""), ("D", .str "")]
    | some j =>
      if (getField j "A").isSome && (getField j "B").isSome then
        .obj [("A", jsSel (getField j "A") (jsSel (getField j "a") (.str ""))),
              ("B", jsSel (getField j "B") (jsSel (getField j "b") (.str ""))),
              ("C", jsSel (getField j "C") (jsSel (getField j "c") (.str ""))),
              ("D", jsSel (getField j "D") (jsSel (getField j "d") (.str "")))]
      else
        match j with
        | .arr es =>
          .obj [("A", jsSel (es.get? 0) (.str "")),
                ("B", jsSel (es.get? 1) (.str "")),
                ("C", jsSel (es.get? 2) (.str "")),
                ("D", jsSel (es.get? 3) (.str ""))]
        | _ =>
          if (getField j "a").isSome || (getField j "b").isSome then
            .obj [("A", jsSel (getField j "a") (.str "")),
                  ("B", jsSel (getField j "b") (.str "")),
                  ("C", jsSel (getField j "c") (.str "")),
                  ("D", jsSel (getField j "d") (.str ""))]
          else .obj [("A", .str ""), ("B", .str ""), ("C", .str ""), ("D", .str "")]

/-- `typeof x === 'object'` for a parsed JSON value. -/
def isTypeofObject : Json → Bool
  | .null => true
  | .arr _ => true
  | .obj _ => true
  | _ => false

/-- The first character a JavaScript uppercase conversion would produce. -/
def upperC (c : Char) : Char :=
  if decide ('a' ≤ c) && decide (c ≤ 'z') then Char.ofNat (c.toNat - 32) else c

/-- The answer-letter extraction of `normalizeMCQ`: `answer.match(/^[A-DA-d]/)`
accepts any first character in the ASCII range `A`..`d` (the class is the
union of the ranges `A-D` and `A-d`), and uppercases it; otherwise `'A'`. -/
def answerLetter (answer : String) : String :=
  match answer.data with
  | c :: _ =>
    if decide ('A' ≤ c) && decide (c ≤ 'd') then String.mk [upperC c] else "A"
  | [] => "A"

/-- `normalizeMCQ` (ai-service.js line 364): `none` models the `null` return
for a missing or non-object record (arrays pass the `typeof` test). -/
def normalizeMCQ (j : Json) : Option Json :=
  if !(jsTruthy j && isTypeofObject j) then none
  else
    let answerJ := jsSel (getField j "correctAnswer")
      (jsSel (getField j "correct_answer")
        (jsSel (getField j "answer")
          (jsSel (getField j "Answer")
            (jsSel (getField j "correct_option")
              (jsSel (getField j "selected_option") (.str "A"))))))
    let answer := trimS (jsToString answerJ)
    some (.obj
      [("question", jsSel (getField j "question")
          (jsSel (getField j "Question")
            (jsSel (getField j "text") (.str "No question provided")))),
       ("options", normalizeOptions
          (jsOr (getField j "options") (jsOr (getField j "Options") (getField j "choices")))),
       ("correctAnswer", .str (answerLetter answer)),
       ("explanation", jsSel (getField j "explanation")
          (jsSel (getField j "Explanation")
            (jsSel (getField j "reasoning") (.str ""))))])

/-!
## `generateWithFallback` (ai-service.js lines 182-245)

A provider call's outcome is a success carrying the raw text or an error
carrying the message and the optional HTTP status of the response. An
`oracle : String → Nat → CallRes` fixes the outcome of every (model,
attempt) call, and the engine is instrumented to return, next to its
result, the trace of `(model, attempt)` calls it made. The backoff sleeps
change no observable outcome and are not modelled.
-/

structure ErrInfo where
  msg : String
  status : Option Nat
deriving DecidableEq, Repr

inductive CallRes where
  | ok (text : String) : CallRes
  | err (e : ErrInfo) : CallRes
deriving DecidableEq, Repr

/-- Substring test, for `String.prototype.includes`. -/
def containsSub (l sub : List Char) : Bool :=
  sub.isPrefixOf l ||
    match l with
    | [] => false
    | _ :: r => containsSub r sub

/-- `isQuotaError || isOverloaded` (ai-service.js lines 209-210). -/
def isTransientErr (e : ErrInfo) : Bool :=
  containsSub e.msg.data ['4', '2', '9'] || e.status == some 429
    || containsSub e.msg.data ['5', '0', '3']
    || containsSub e.msg.data "overloaded".data

/-- The fixed candidate list (ai-service.js line 106). -/
def MODELS : List String :=
  ["gemini-1.5-flash-latest", "gemini-flash-lite-latest", "gemini-flash-latest",
   "gemini-2.0-flash-exp", "gemini-2.0-flash-lite", "gemini-1.5-pro-latest",
   "gemini-2.0-pro-exp"]

/-- The inner attempt loop for one model (ai-service.js lines 199-236):
`retries` counts the attempts still allowed after the current one (the
source's `attempt < 3` with `attempt` running 1..3, so the loop starts at
`runAttempts f 2 1`). A success returns at once; a transient error with
retries left continues at `attempt + 1`; any other error (or a transient one
on the last attempt) is thrown to the outer loop. The second component is
the list of attempt numbers actually made. -/
def runAttempts (f : Nat → CallRes) : Nat → Nat → Except ErrInfo String × List Nat
  | 0, attempt =>
    match f attempt with
    | .ok v => (.ok v, [attempt])
    | .err e => (.error e, [attempt])
  | retries + 1, attempt =>
    match f attempt with
    | .ok v => (.ok v, [attempt])
    | .err e =>
      if isTransientErr e then
        let (res, t) := runAttempts f retries (attempt + 1)
        (res, attempt :: t)
      else (.error e, [attempt])

/-- The outer model loop (ai-service.js lines 185-244), carrying `lastError`;
the trace records every `(model, attempt)` call in order. -/
def fallbackAux (oracle : String → Nat → CallRes) :
    List String → Option ErrInfo → Except String String × List (String × Nat)
  | [], lastErr =>
    (.error ("All models failed. Last error: " ++
      (match lastErr with
       | some e => e.msg
       | none => "Unknown error")), [])
  | m :: rest, _lastErr =>
    match runAttempts (oracle m) 2 1 with
    | (.ok v, t) => (.ok v, t.map (fun a => (m, a)))
    | (.error e, t) =>
      let (res, tr) := fallbackAux oracle rest (some e)
      (res, t.map (fun a => (m, a)) ++ tr)

/-- `generateWithFallback` as a function of the per-call outcomes. -/
def generateWithFallback (oracle : String → Nat → CallRes) :
    Except String String × List (String × Nat) :=
  fallbackAux oracle MODELS none

/-!
## Post-parse processing of the two paths and the result cache

`generateMCQs` (ai-service.js lines 248-324): the parsed value is filtered
by `mcq && typeof mcq === 'object'` directly — there is no `Array.isArray`
test and no wrapper-key probing on this path — and the surviving records go
verbatim to the caller and the cache. `solveMCQs` (lines 390-464) probes
wrapper keys on a non-array value and maps every record through
`normalizeMCQ`.
-/

/-- The filter `mcq && typeof mcq === 'object'` (ai-service.js line 298). -/
def jsObjLike (j : Json) : Bool := jsTruthy j && isTypeofObject j

/-- What `generateMCQs` does with the parsed value (lines 297-307): a
non-array value makes `mcqs.filter` throw a `TypeError`, caught by the
function's catch-all. -/
def genArrStep (j : Json) : Except String (List Json) :=
  match j with
  | .arr l =>
    let valid := l.filter jsObjLike
    if valid.isEmpty && !l.isEmpty then
      .error "All generated MCQs were malformed. Please try again or refine your material."
    else .ok valid
  | _ => .error "TypeError: mcqs.filter is not a function"

/-- The wrapper-key probe of `solveMCQs` (lines 424-440): on a non-array
value, the keys `mcqs`, `questions`, `answers`, `results` are tried in
order for an array value; a miss on all of them is the format error. -/
def solveGetArray (j : Json) : Except String (List Json) :=
  match j with
  | .arr l => .ok l
  | _ =>
    match getField j "mcqs" with
    | some (.arr l) => .ok l
    | _ =>
      match getField j "questions" with
      | some (.arr l) => .ok l
      | _ =>
        match getField j "answers" with
        | some (.arr l) => .ok l
        | _ =>
          match getField j "results" with
          | some (.arr l) => .ok l
          | _ => .error "Invalid response format: expected array of MCQs"

/-- The normalization stage of `solveMCQs` (lines 442-458). -/
def solveNormalize (l : List Json) : Except String (List Json) :=
  let valid := l.filterMap normalizeMCQ
  if valid.isEmpty then .error "No valid MCQs could be extracted from the AI response"
  else .ok valid

/-- The result cache: a `Map` iterated in insertion order, as a list with the
oldest entry first. -/
def lookupC (c : List (String × List Json)) (k : String) : Option (List Json) :=
  match c with
  | [] => none
  | (k', v) :: r => if k' = k then some v else lookupC r k

/-- The insertion of ai-service.js lines 310-315: when the cache has reached
`CACHE_LIMIT = 500` entries, the first-inserted key is deleted before the
new entry is appended. -/
def cacheInsert (k : String) (v : List Json) (c : List (String × List Json)) :
    List (String × List Json) :=
  (if 500 ≤ c.length then c.drop 1 else c) ++ [(k, v)]

/-- One `generateMCQs` call after the cache-hit test failed (or no cache key
exists): `raw` is the fallback engine's outcome, `.error` when it threw.
Parse and filter failures are wrapped by the catch-all of lines 320-323; a
non-empty result under a cache key is inserted. -/
def generateBody (c : List (String × List Json)) (key : Option String)
    (raw : Except String String) : Except String (List Json) × List (String × List Json) :=
  match raw with
  | .error e => (.error ("Failed to generate MCQs: " ++ e), c)
  | .ok text =>
    match parseJson (cleanJSONResponse text) with
    | none => (.error "Failed to generate MCQs: SyntaxError", c)
    | some j =>
      match genArrStep j with
      | .error e => (.error ("Failed to generate MCQs: " ++ e), c)
      | .ok valid =>
        match key with
        | some k =>
          if valid.isEmpty then (.ok valid, c) else (.ok valid, cacheInsert k valid c)
        | none => (.ok valid, c)

/-- One `generateMCQs` call against a cache state: `key` is the request's
fingerprint (`none` for a file-bearing request, which is never cached), and
the second component is the cache afterwards. -/
def generateMCQsStep (c : List (String × List Json)) (key : Option String)
    (raw : Except String String) : Except String (List Json) × List (String × List Json) :=
  match key with
  | some k =>
    match lookupC c k with
    | some v => (.ok v, c)
    | none => generateBody c key raw
  | none => generateBody c key raw

/-- Cache states reachable from the empty cache through `generateMCQs` calls. -/
inductive CacheReach : List (String × List Json) → Prop
  | init : CacheReach []
  | step (c : List (String × List Json)) (key : Option String)
      (raw : Except String String) : CacheReach c → CacheReach (generateMCQsStep c key raw).2

/-!
## The batch scheduler and stream of `/generate-mcq` (validators.js lines 158-233)

The while loop of lines 178-195 removes at least one item per iteration, so
`easy + medium + hard` iterations always suffice: the fuel of
`computeBatchesAux` never runs out when `computeBatches` supplies it.
-/

structure Batch where
  easyCount : Nat
  mediumCount : Nat
  hardCount : Nat
deriving DecidableEq, Repr

def computeBatchesAux : Nat → Nat → Nat → Nat → List Batch
  | 0, _, _, _ => []
  | fuel + 1, e, m, h =>
    if e = 0 && m = 0 && h = 0 then []
    else
      let bE := min e 2
      let bM := min m (2 - bE)
      let bH := min h (2 - (bE + bM))
      if 0 < bE + bM + bH then
        ⟨bE, bM, bH⟩ :: computeBatchesAux fuel (e - bE) (m - bM) (h - bH)
      else computeBatchesAux fuel (e - bE) (m - bM) (h - bH)

/-- The batch list of validators.js lines 173-195 (`BATCH_SIZE = 2`). -/
def computeBatches (e m h : Nat) : List Batch := computeBatchesAux (e + m + h) e m h

/-- A stream chunk: a data chunk `{mcqs, completed: false, total, current}`
or the terminal `{completed: true}` marker. -/
inductive Chunk where
  | data (mcqs : List Json) (total : Nat) (current : Nat) : Chunk
  | terminal : Chunk
deriving Repr

/-- The batch loop of validators.js lines 201-233, instrumented with the
list of batches whose `generateMCQs` call was made: a successful batch
writes one data chunk carrying the records and the running `current`
counter, a failed batch is caught and writes nothing, and after the loop
the terminal marker is written. -/
def runBatches (call : Batch → Except String (List Json)) (total : Nat) :
    List Batch → Nat → List Chunk × List Batch
  | [], _ => ([.terminal], [])
  | b :: rest, cur =>
    match call b with
    | .ok l =>
      let (cs, tried) := runBatches call total rest (cur + l.length)
      (.data l total (cur + l.length) :: cs, b :: tried)
    | .error _ =>
      let (cs, tried) := runBatches call total rest cur
      (cs, b :: tried)

/-- The `/generate-mcq` stream for given tier counts and per-batch outcomes. -/
def generateStream (call : Batch → Except String (List Json)) (e m h : Nat) :
    List Chunk × List Batch :=
  runBatches call (e + m + h) (computeBatches e m h) 0

/-- The data chunks the claim's description produces: one chunk per
successful batch in order, failures skipped, `current` accumulating only
successes. Stated independently of `runBatches` for comparison. -/
def deliveredChunks (call : Batch → Except String (List Json)) (total : Nat) :
    List Batch → Nat → List Chunk
  | [], _ => []
  | b :: rest, cur =>
    match call b with
    | .ok l => .data l total (cur + l.length) :: deliveredChunks call total rest (cur + l.length)
    | .error _ => deliveredChunks call total rest cur

/-!
## Claim-side definitions

The definitions below render wording of the specification (not the source),
for comparison against the embedded source functions, plus the concrete
inputs and predicates the theorems quantify over.
-/

/-- `[attempt, attempt+1, ..., attempt+k-1]`. -/
def seqFrom : Nat → Nat → List Nat
  | _, 0 => []
  | a, k + 1 => a :: seqFrom (a + 1) k

/-- The last error a full left-to-right pass over the candidate list leaves
behind, starting from `last`: used to state which failure the final
all-models-failed error wraps. -/
def pendingErr (oracle : String → Nat → CallRes) (models : List String)
    (last : Option ErrInfo) : Option ErrInfo :=
  models.foldl
    (fun acc m =>
      match (runAttempts (oracle m) 2 1).1 with
      | .error e => some e
      | .ok _ => acc)
    last

/-- The character class `[bfnrtu"\/]` of the backslash-fixing regex. -/
def escClassChar (c : Char) : Bool :=
  c = 'b' || c = 'f' || c = 'n' || c = 'r' || c = 't' || c = 'u' || c = '"' || c = '/'

/-- Modelled from the spec's words for C4: a backslash is kept single exactly
when it is immediately followed by one of the JSON-legal escape characters
(`"`, `\`, `/`, `b`, `f`, `n`, `r`, `t`) or by a four-hex-digit unicode
escape; note the backslash itself is in THIS set, unlike the source's class. -/
def specOkNext : List Char → Bool
  | c :: r =>
    (c = '"' || c = '\\' || c = '/' || c = 'b' || c = 'f' || c = 'n' || c = 'r' || c = 't')
    || (c = 'u' &&
        (match r with
         | h1 :: h2 :: h3 :: h4 :: _ => isHexC h1 && isHexC h2 && isHexC h3 && isHexC h4
         | _ => false))
  | [] => false

/-- Modelled from the spec's words for C4: double exactly the backslashes not
followed by a JSON-legal escape character or a four-hex-digit unicode escape. -/
def specEscapeBackslashes : List Char → List Char
  | [] => []
  | '\\' :: r =>
    if specOkNext r then '\\' :: specEscapeBackslashes r
    else '\\' :: '\\' :: specEscapeBackslashes r
  | c :: r => c :: specEscapeBackslashes r

/-- What position `i` of `l` contributes to the backslash-doubling output:
a positional (non-recursive) characterization of the regex replacement. -/
def doubledAt (l : List Char) (i : Nat) : List Char :=
  match l.get? i with
  | some '\\' => if okEscNext (l.drop (i + 1)) then ['\\'] else ['\\', '\\']
  | some c => [c]
  | none => []

/-- The positional form of the backslash-doubling step. -/
def doubleSpec (l : List Char) : List Char :=
  (List.range l.length).foldr (fun i acc => doubledAt l i ++ acc) []

/-- Does the text contain three consecutive backticks (a fence marker)? -/
def hasTriple : List Char → Bool
  | '`' :: '`' :: '`' :: _ => true
  | _ :: r => hasTriple r
  | [] => false

/-- A character that cannot interact with any sanitizer step: printable,
above space, and none of quote, backslash, brace, bracket, colon, backtick. -/
def plainChar (c : Char) : Bool :=
  32 < c.toNat &&
    !(c = '"' || c = '\\' || c = '\x7b' || c = '\x7d' || c = '[' || c = ']'
      || c = ':' || c = '`')

/-- `[{"a":1},{"b":"` — an array truncated inside the string value of its
second record, after one complete record. -/
def frameC5 : List Char :=
  ['[', '\x7b', '"', 'a', '"', ':', '1', '\x7d', ',', '\x7b', '"', 'b', '"', ':', '"']

/-- `[{"x": "` — the opening of a one-record array whose single field value
starts with an unescaped backslash. -/
def frameC4 : List Char := ['[', '\x7b', '"', 'x', '"', ':', ' ', '"']

/-- A parsed record with lowercase option keys and a lowercase `answer`
field, to separate the generation path (verbatim) from the solving path
(canonicalizing). -/
def lcRec : Json :=
  .obj [("question", .str "q"),
        ("options", .obj [("a", .str "w"), ("b", .str "x"), ("c", .str "y"), ("d", .str "z")]),
        ("answer", .str "b")]

/-- What `normalizeMCQ` makes of `lcRec`. -/
def lcRecNorm : Json :=
  .obj [("question", .str "q"),
        ("options", .obj [("A", .str "w"), ("B", .str "x"), ("C", .str "y"), ("D", .str "z")]),
        ("correctAnswer", .str "B"),
        ("explanation", .str "")]

/-!
## Theorems
-/

/-- Helper: `Except.isOk` forces an `.ok` value. -/
theorem isOk_exists {e : Type} {a : Type} (x : Except e a) (h : x.isOk = true) :
    ∃ v, x = .ok v := by
  cases x with
  | ok v => exact ⟨v, rfl⟩
  | error err => simp [Except.isOk, Except.toBool] at h

/-- Claim C9: in the generation stream, a batch whose call fails contributes
no chunk (and no error chunk exists in the stream's vocabulary beyond data
and terminal), every batch is still processed, and the terminal chunk is
still emitted: the stream equals the successful batches' data chunks
followed by exactly the one terminal marker, the batches tried are all of
them, and the number of data chunks is the number of successful batches. -/
theorem c9_batch_failures_swallowed (call : Batch → Except String (List Json))
    (total : Nat) (bs : List Batch) (cur : Nat) :
    runBatches call total bs cur = (deliveredChunks call total bs cur ++ [.terminal], bs) ∧
    (deliveredChunks call total bs cur).length
      = (bs.filter (fun b => (call b).isOk)).length := by
  induction bs generalizing cur with
  | nil => simp [runBatches, deliveredChunks]
  | cons b rest ih =>
    cases hc : call b with
    | ok l => simp [runBatches, deliveredChunks, hc, (ih (cur + l.length)).1,
        (ih (cur + l.length)).2, Except.isOk, Except.toBool, List.filter_cons]
    | error e => simp [runBatches, deliveredChunks, hc, (ih cur).1, (ih cur).2,
        Except.isOk, Except.toBool, List.filter_cons]

/-- Claim C2: for tier counts easy=3, medium=1, hard=0 and batch size 2 the
scheduler produces exactly the batches (2,0,0) then (1,1,0), and when every
batch call succeeds the stream is exactly two data chunks (total 4, current
accumulating) followed by one terminal chunk. -/
theorem c2_scheduler_batches (call : Batch → Except String (List Json))
    (h : ∀ b, (call b).isOk = true) :
    computeBatches 3 1 0 = [⟨2, 0, 0⟩, ⟨1, 1, 0⟩] ∧
    ∃ l₁ l₂, call ⟨2, 0, 0⟩ = .ok l₁ ∧ call ⟨1, 1, 0⟩ = .ok l₂ ∧
      generateStream call 3 1 0 =
        ([.data l₁ 4 l₁.length, .data l₂ 4 (l₁.length + l₂.length), .terminal],
         [⟨2, 0, 0⟩, ⟨1, 1, 0⟩]) := by
  have h1 := h ⟨2, 0, 0⟩
  have h2 := h ⟨1, 1, 0⟩
  cases hc1 : call ⟨2, 0, 0⟩ with
  | error e => rw [hc1] at h1; simp [Except.isOk, Except.toBool] at h1
  | ok l₁ =>
    cases hc2 : call ⟨1, 1, 0⟩ with
    | error e => rw [hc2] at h2; simp [Except.isOk, Except.toBool] at h2
    | ok l₂ =>
      refine ⟨by decide, l₁, l₂, rfl, rfl, ?_⟩
      show runBatches call 4 (computeBatches 3 1 0) 0 = _
      have hb : computeBatches 3 1 0 = [⟨2, 0, 0⟩, ⟨1, 1, 0⟩] := by decide
      rw [hb]
      simp [runBatches, hc1, hc2]

theorem c2_witness :
    computeBatches 3 1 0 = [⟨2, 0, 0⟩, ⟨1, 1, 0⟩] ∧
    ∃ l₁ l₂, (fun _ => (.ok [] : Except String (List Json))) (⟨2, 0, 0⟩ : Batch) = .ok l₁ ∧
      (fun _ => (.ok [] : Except String (List Json))) (⟨1, 1, 0⟩ : Batch) = .ok l₂ ∧
      generateStream (fun _ => .ok []) 3 1 0 =
        ([.data l₁ 4 l₁.length, .data l₂ 4 (l₁.length + l₂.length), .terminal],
         [⟨2, 0, 0⟩, ⟨1, 1, 0⟩]) :=
  c2_scheduler_batches (fun _ => .ok []) (fun _ => rfl)

theorem generateBody_snd (c : List (String × List Json)) (key : Option String)
    (raw : Except String String) :
    (generateBody c key raw).2 = c ∨
      ∃ k v, key = some k ∧ v ≠ [] ∧ (generateBody c key raw).2 = cacheInsert k v c := by
  unfold generateBody
  cases raw with
  | error e => simp
  | ok text =>
    cases hp : parseJson (cleanJSONResponse text) with
    | none => simp [hp]
    | some j =>
      cases hg : genArrStep j with
      | error e => simp [hp, hg]
      | ok valid =>
        cases key with
        | none => simp [hp, hg]
        | some k =>
          by_cases hv : valid.isEmpty
          · simp [hp, hg, hv]
          · right
            refine ⟨k, valid, rfl, ?_, by simp [hp, hg, hv]⟩
            intro hnil
            rw [hnil] at hv
            simp at hv

theorem cacheInsert_len (k : String) (v : List Json) (c : List (String × List Json))
    (h : c.length ≤ 500) : (cacheInsert k v c).length ≤ 500 := by
  unfold cacheInsert
  by_cases h5 : 500 ≤ c.length
  · simp [h5]
    omega
  · simp [h5]
    omega

/-- Claim C8: every cache state reachable through `generateMCQs` calls has at
most 500 entries and stores no empty result; inserting into a full cache
evicts exactly the oldest-inserted entry (the head) and nothing else, an
insert below capacity evicts nothing, and a cache read (hit) leaves the
cache unchanged. -/
theorem c8_cache_bounded_fifo :
    (∀ c, CacheReach c → c.length ≤ 500 ∧ ∀ p ∈ c, p.2 ≠ []) ∧
    (∀ (c : List (String × List Json)) (k : String) (v : List Json),
        c.length = 500 → cacheInsert k v c = c.tail ++ [(k, v)]) ∧
    (∀ (c : List (String × List Json)) (k : String) (v : List Json),
        c.length < 500 → cacheInsert k v c = c ++ [(k, v)]) ∧
    (∀ (c : List (String × List Json)) (k : String) (raw : Except String String)
        (v : List Json), lookupC c k = some v →
        generateMCQsStep c (some k) raw = (.ok v, c)) := by
  refine ⟨?_, ?_, ?_, ?_⟩
  · intro c h
    induction h with
    | init => simp
    | step c key raw hr ih =>
      have hs : (generateMCQsStep c key raw).2 = c ∨
          ∃ k v, key = some k ∧ v ≠ [] ∧ (generateMCQsStep c key raw).2 = cacheInsert k v c := by
        cases key with
        | none => exact generateBody_snd c none raw
        | some k =>
          cases hl : lookupC c k with
          | some v => simp [generateMCQsStep, hl]
          | none =>
            have heq : generateMCQsStep c (some k) raw = generateBody c (some k) raw := by
              simp [generateMCQsStep, hl]
            rw [heq]
            exact generateBody_snd c (some k) raw
      rcases hs with hs | ⟨k, v, _, hv, hs⟩
      · rw [hs]; exact ih
      · rw [hs]
        constructor
        · exact cacheInsert_len k v c ih.1
        · intro p hp
          unfold cacheInsert at hp
          rcases List.mem_append.mp hp with hp | hp
          · have hpc : p ∈ c := by
              by_cases h5 : 500 ≤ c.length
              · rw [if_pos h5] at hp
                exact List.mem_of_mem_drop hp
              · rw [if_neg h5] at hp
                exact hp
            exact ih.2 p hpc
          · rcases List.mem_singleton.mp hp with rfl
            exact hv
  · intro c k v h
    unfold cacheInsert
    rw [if_pos (by omega)]
    cases c with
    | nil => simp at h
    | cons a r => simp
  · intro c k v h
    unfold cacheInsert
    rw [if_neg (by omega)]
  · intro c k raw v h
    simp [generateMCQsStep, h]

/-- Claim C6 (failing part, evaluated at the failing input): the answer
regex `/^[A-DA-d]/` accepts every ASCII character from `A` to `d`, so a
record whose answer field is `"E"` is normalized to `correctAnswer = "E"`,
which is none of the four valid labels — against the invariant that the
label is always one of A, B, C, D (defaulting to A). -/
theorem c6_answer_letter_beyond_labels :
    normalizeMCQ (.obj [("answer", .str "E")]) =
      some (.obj [("question", .str "No question provided"),
        ("options", .obj [("A", .str ""), ("B", .str ""), ("C", .str ""), ("D", .str "")]),
        ("correctAnswer", .str "E"), ("explanation", .str "")]) ∧
    ¬("E" = "A" ∨ "E" = "B" ∨ "E" = "C" ∨ "E" = "D") :=
  ⟨rfl, by decide⟩

/-- Claim C7 (counterexample): a response parsing to an object whose
`questions` key holds an array is unwrapped by the solving path, but makes
the generation path throw a `TypeError` — the generation path performs no
wrapper-key probing, so the claimed behavior does not hold for both paths. -/
theorem c7_generation_path_does_not_probe :
    genArrStep (.obj [("questions", .arr [.obj [("question", .str "q")]])]) =
      .error "TypeError: mcqs.filter is not a function" ∧
    solveGetArray (.obj [("questions", .arr [.obj [("question", .str "q")]])]) =
      .ok [.obj [("question", .str "q")]] :=
  ⟨rfl, rfl⟩

/-- Claim C7 (amended): for every parsed top-level value that is not an
array, the SOLVING path probes the fixed wrapper keys `mcqs`, `questions`,
`answers`, `results` for an array value and fails with the structured
format error when none holds one (and unwraps `mcqs` when it does), while
the GENERATION path never probes: it always fails with the member-call
`TypeError`. -/
theorem c7_wrapper_probe_on_solving_path (j : Json) (hna : ∀ l, j ≠ .arr l) :
    genArrStep j = .error "TypeError: mcqs.filter is not a function" ∧
    ((∀ k ∈ ["mcqs", "questions", "answers", "results"], ∀ l, getField j k ≠ some (.arr l)) →
      solveGetArray j = .error "Invalid response format: expected array of MCQs") ∧
    (∀ l, getField j "mcqs" = some (.arr l) → solveGetArray j = .ok l) := by
  refine ⟨?_, ?_, ?_⟩
  · cases j with
    | arr l => exact absurd rfl (hna l)
    | null => rfl
    | bool b => rfl
    | num n => rfl
    | str s => rfl
    | obj fs => rfl
  · intro hk
    have h1 := hk "mcqs" (by simp)
    have h2 := hk "questions" (by simp)
    have h3 := hk "answers" (by simp)
    have h4 := hk "results" (by simp)
    cases j with
    | arr l => exact absurd rfl (hna l)
    | null => rfl
    | bool b => rfl
    | num n => rfl
    | str s => rfl
    | obj fs =>
      unfold solveGetArray
      have red : ∀ (o : Option Json) (alt : Except String (List Json)),
          (∀ l, o ≠ some (.arr l)) →
          (match o with
           | some (.arr l) => Except.ok l
           | _ => alt) = alt := by
        intro o alt ho
        match o with
        | none => rfl
        | some .null => rfl
        | some (.bool b) => rfl
        | some (.num n) => rfl
        | some (.str s) => rfl
        | some (.obj fs2) => rfl
        | some (.arr l) => exact absurd rfl (ho l)
      rw [red _ _ h1, red _ _ h2, red _ _ h3, red _ _ h4]
  · intro l h
    cases j with
    | arr l2 => exact absurd rfl (hna l2)
    | null => simp [getField] at h
    | bool b => simp [getField] at h
    | num n => simp [getField] at h
    | str s => simp [getField] at h
    | obj fs => simp [solveGetArray, h]

theorem c7_probe_witness :
    genArrStep (.str "oops") = .error "TypeError: mcqs.filter is not a function" ∧
    solveGetArray (.str "oops") = .error "Invalid response format: expected array of MCQs" := by
  have h := c7_wrapper_probe_on_solving_path (.str "oops") (fun l h => by cases h)
  exact ⟨h.1, h.2.1 (fun k _ l hl => by simp [getField] at hl)⟩

/-- Claim C10: the generation path returns, caches and streams exactly the
parsed records that pass the `mcq && typeof mcq === 'object'` filter,
verbatim — no canonicalization — while the solving path maps every record
through `normalizeMCQ`; in particular a lowercase-keyed record passes the
generation path unchanged and comes out of the solving path in canonical
form, which differs from it. -/
theorem c10_generation_verbatim_solving_normalizes :
    (∀ (l out : List Json), genArrStep (.arr l) = .ok out → out = l.filter jsObjLike) ∧
    (∀ (l out : List Json), solveNormalize l = .ok out → out = l.filterMap normalizeMCQ) ∧
    (∀ (c : List (String × List Json)) (k : String) (text : String)
        (out : List Json) (c2 : List (String × List Json)),
        lookupC c k = none →
        generateMCQsStep c (some k) (.ok text) = (.ok out, c2) →
        ∃ j, parseJson (cleanJSONResponse text) = some j ∧ genArrStep j = .ok out ∧
          (out = [] → c2 = c) ∧ (out ≠ [] → c2 = cacheInsert k out c)) ∧
    genArrStep (.arr [lcRec]) = .ok [lcRec] ∧
    solveNormalize [lcRec] = .ok [lcRecNorm] ∧
    normalizeMCQ lcRec = some lcRecNorm ∧
    lcRec ≠ lcRecNorm := by
  refine ⟨?_, ?_, ?_, rfl, rfl, rfl, by simp [lcRec, lcRecNorm]⟩
  · intro l out h
    simp only [genArrStep] at h
    by_cases hc : (l.filter jsObjLike).isEmpty && !l.isEmpty
    · rw [if_pos hc] at h
      cases h
    · rw [if_neg hc] at h
      exact (Except.ok.inj h).symm
  · intro l out h
    unfold solveNormalize at h
    by_cases hc : (l.filterMap normalizeMCQ).isEmpty
    · rw [if_pos hc] at h
      cases h
    · rw [if_neg hc] at h
      exact (Except.ok.inj h).symm
  · intro c k text out c2 hl h
    rw [show generateMCQsStep c (some k) (.ok text) = generateBody c (some k) (.ok text) by
      simp [generateMCQsStep, hl]] at h
    simp only [generateBody] at h
    cases hp : parseJson (cleanJSONResponse text) with
    | none => simp only [hp] at h; cases h
    | some j =>
      simp only [hp] at h
      cases hg : genArrStep j with
      | error e => simp only [hg] at h; cases h
      | ok valid =>
        simp only [hg] at h
        by_cases hv : valid.isEmpty
        · rw [if_pos hv] at h
          have hout : out = valid := (Except.ok.inj (Prod.mk.injEq .. ▸ h).1).symm
          have hc2 : c2 = c := ((Prod.mk.injEq .. ▸ h).2).symm
          refine ⟨j, rfl, ?_, fun _ => hc2, fun hne => ?_⟩
          · rw [hg, hout]
          · exact absurd (hout.symm ▸ List.isEmpty_iff.mp hv) hne
        · rw [if_neg hv] at h
          have hout : out = valid := (Except.ok.inj (Prod.mk.injEq .. ▸ h).1).symm
          have hc2 : c2 = cacheInsert k valid c := ((Prod.mk.injEq .. ▸ h).2).symm
          refine ⟨j, rfl, ?_, fun hnil => ?_, fun _ => hout ▸ hc2⟩
          · rw [hg, hout]
          · exact absurd (hout ▸ hnil) (by simpa [List.isEmpty_iff] using hv)

theorem runAttempts_spec (f : Nat → CallRes) :
    ∀ (retries attempt : Nat),
    ∃ k, 0 < k ∧ k ≤ retries + 1 ∧
      (runAttempts f retries attempt).2 = seqFrom attempt k ∧
      (∀ i, i + 1 < k → ∃ e, f (attempt + i) = .err e ∧ isTransientErr e = true) ∧
      ((∃ v, (runAttempts f retries attempt).1 = .ok v ∧ f (attempt + (k - 1)) = .ok v) ∨
       (∃ e, (runAttempts f retries attempt).1 = .error e ∧ f (attempt + (k - 1)) = .err e ∧
         (isTransientErr e = false ∨ k = retries + 1))) := by
  intro retries
  induction retries with
  | zero =>
    intro attempt
    refine ⟨1, Nat.one_pos, Nat.le_refl 1, ?_, ?_, ?_⟩
    · cases hf : f attempt <;> simp [runAttempts, hf, seqFrom]
    · intro i hi
      omega
    · cases hf : f attempt with
      | ok v => exact Or.inl ⟨v, by simp [runAttempts, hf], by simpa using hf⟩
      | err e => exact Or.inr ⟨e, by simp [runAttempts, hf], by simpa using hf, Or.inr rfl⟩
  | succ r ih =>
    intro attempt
    cases hf : f attempt with
    | ok v =>
      refine ⟨1, Nat.one_pos, by omega, ?_, ?_, ?_⟩
      · simp [runAttempts, hf, seqFrom]
      · intro i hi
        omega
      · exact Or.inl ⟨v, by simp [runAttempts, hf], by simpa using hf⟩
    | err e =>
      by_cases ht : isTransientErr e
      · obtain ⟨k, hk0, hkle, htr, hmid, hend⟩ := ih (attempt + 1)
        refine ⟨k + 1, Nat.succ_pos k, by omega, ?_, ?_, ?_⟩
        · simp [runAttempts, hf, ht, seqFrom, htr]
        · intro i hi
          cases i with
          | zero => exact ⟨e, by simpa using hf, ht⟩
          | succ j =>
            obtain ⟨e2, he2, ht2⟩ := hmid j (by omega)
            refine ⟨e2, ?_, ht2⟩
            have harith : attempt + (j + 1) = attempt + 1 + j := by omega
            rw [harith]
            exact he2
        · have harith : attempt + (k + 1 - 1) = attempt + 1 + (k - 1) := by omega
          rcases hend with ⟨v, hres, hcall⟩ | ⟨e2, hres, hcall, hcond⟩
          · refine Or.inl ⟨v, ?_, by rw [harith]; exact hcall⟩
            simp [runAttempts, hf, ht, hres]
          · refine Or.inr ⟨e2, ?_, by rw [harith]; exact hcall, ?_⟩
            · simp [runAttempts, hf, ht, hres]
            · rcases hcond with hcond | hcond
              · exact Or.inl hcond
              · exact Or.inr (by omega)
      · refine ⟨1, Nat.one_pos, by omega, ?_, ?_, ?_⟩
        · simp [runAttempts, hf, ht, seqFrom]
        · intro i hi
          omega
        · exact Or.inr ⟨e, by simp [runAttempts, hf, ht], by simpa using hf, Or.inl (by simpa using ht)⟩

theorem fallbackAux_spec (oracle : String → Nat → CallRes) :
    ∀ (models : List String) (last : Option ErrInfo),
    ∃ n, n ≤ models.length ∧
      (fallbackAux oracle models last).2 =
        (models.take n).foldr
          (fun m acc => ((runAttempts (oracle m) 2 1).2.map (fun a => (m, a))) ++ acc) [] ∧
      ((∃ v, (fallbackAux oracle models last).1 = .ok v ∧ 0 < n ∧
          (∀ m ∈ models.take (n - 1), ∃ e, (runAttempts (oracle m) 2 1).1 = .error e) ∧
          ∃ ml rest2, models.drop (n - 1) = ml :: rest2 ∧
            (runAttempts (oracle ml) 2 1).1 = .ok v) ∨
       (∃ s, (fallbackAux oracle models last).1 = .error s ∧ n = models.length ∧
          (∀ m ∈ models, ∃ e, (runAttempts (oracle m) 2 1).1 = .error e) ∧
          s = "All models failed. Last error: " ++
            (match pendingErr oracle models last with
             | some e => e.msg
             | none => "Unknown error"))) := by
  intro models
  induction models with
  | nil =>
    intro last
    refine ⟨0, Nat.le_refl 0, by simp [fallbackAux], Or.inr ⟨_, rfl, rfl, by simp, ?_⟩⟩
    simp [pendingErr]
  | cons m rest ih =>
    intro last
    rcases hp : runAttempts (oracle m) 2 1 with ⟨res, t⟩
    cases res with
    | ok v =>
      refine ⟨1, by simp, ?_, Or.inl ⟨v, ?_, Nat.one_pos, ?_, m, rest, ?_, ?_⟩⟩
      · simp [fallbackAux, hp]
      · simp [fallbackAux, hp]
      · simp
      · simp
      · rw [hp]
    | error e =>
      obtain ⟨n, hnle, htr, hdisj⟩ := ih (some e)
      refine ⟨n + 1, by simpa using hnle, ?_, ?_⟩
      · simp only [List.take_succ_cons, List.foldr_cons, fallbackAux, hp]
        rw [htr]
      · rcases hdisj with ⟨v, hres, hn0, hfailed, ml, rest2, hdrop, hok⟩ | ⟨s, hres, hlen, hall, hs⟩
        · refine Or.inl ⟨v, ?_, Nat.succ_pos n, ?_, ml, rest2, ?_, hok⟩
          · simp [fallbackAux, hp, hres]
          · have hn1 : n + 1 - 1 = n := by omega
            rw [hn1]
            cases n with
            | zero => omega
            | succ j =>
              intro m2 hm2
              rcases List.mem_cons.mp (by simpa [List.take_succ_cons] using hm2) with rfl | hm2a
              · exact ⟨e, by rw [hp]⟩
              · exact hfailed m2 (by simpa using hm2a)
          · have : n + 1 - 1 = n := by omega
            rw [this]
            cases n with
            | zero => omega
            | succ j =>
              simpa using hdrop
        · refine Or.inr ⟨s, ?_, by simpa using hlen, ?_, ?_⟩
          · simp [fallbackAux, hp, hres]
          · intro m2 hm2
            rcases List.mem_cons.mp hm2 with rfl | hm2
            · exact ⟨e, by rw [hp]⟩
            · exact hall m2 hm2
          · rw [hs]
            have : pendingErr oracle (m :: rest) last = pendingErr oracle rest (some e) := by
              simp [pendingErr, hp]
            rw [this]

/-- Claim C1: for every sequence of per-call outcomes, the fallback engine's
trace is the per-model attempt blocks of a prefix of the fixed `MODELS`
list in order; within one candidate the attempts are consecutive from 1, at
most 3, every non-final attempt failed with a transient error (429 in the
message or status, 503 or "overloaded" in the message), and the block ends
at the first success, at the first non-transient error, or at attempt 3; a
success is the last call's result and no later candidate is ever called;
and the engine returns an error only when every candidate in the list has
failed, the error wrapping the message of the last observed failure. -/
theorem c1_fallback_contract (oracle : String → Nat → CallRes) :
    (∀ m : String, ∃ k, 0 < k ∧ k ≤ 3 ∧
        (runAttempts (oracle m) 2 1).2 = seqFrom 1 k ∧
        (∀ i, i + 1 < k → ∃ e, oracle m (1 + i) = .err e ∧ isTransientErr e = true) ∧
        ((∃ v, (runAttempts (oracle m) 2 1).1 = .ok v ∧ oracle m (1 + (k - 1)) = .ok v) ∨
         (∃ e, (runAttempts (oracle m) 2 1).1 = .error e ∧ oracle m (1 + (k - 1)) = .err e ∧
           (isTransientErr e = false ∨ k = 3)))) ∧
    (∃ n, n ≤ MODELS.length ∧
      (generateWithFallback oracle).2 =
        (MODELS.take n).foldr
          (fun m acc => ((runAttempts (oracle m) 2 1).2.map (fun a => (m, a))) ++ acc) [] ∧
      ((∃ v, (generateWithFallback oracle).1 = .ok v ∧ 0 < n ∧
          (∀ m ∈ MODELS.take (n - 1), ∃ e, (runAttempts (oracle m) 2 1).1 = .error e) ∧
          ∃ ml rest2, MODELS.drop (n - 1) = ml :: rest2 ∧
            (runAttempts (oracle ml) 2 1).1 = .ok v) ∨
       (∃ s, (generateWithFallback oracle).1 = .error s ∧ n = MODELS.length ∧
          (∀ m ∈ MODELS, ∃ e, (runAttempts (oracle m) 2 1).1 = .error e) ∧
          s = "All models failed. Last error: " ++
            (match pendingErr oracle MODELS none with
             | some e => e.msg
             | none => "Unknown error")))) :=
  ⟨fun m => runAttempts_spec (oracle m) 2 1, fallbackAux_spec oracle MODELS none⟩

theorem dropWhile_head_false {p : Char → Bool} {l t : List Char} {z : Char}
    (h : l.dropWhile p = z :: t) : p z = false := by
  induction l with
  | nil => simp at h
  | cons a r ih =>
    rw [List.dropWhile_cons] at h
    by_cases hp : p a
    · rw [if_pos hp] at h
      exact ih h
    · rw [if_neg hp] at h
      cases h
      simpa using hp

theorem dropWhile_len_le (p : Char → Bool) (l : List Char) :
    (l.dropWhile p).length ≤ l.length := by
  induction l with
  | nil => simp
  | cons a r ih =>
    rw [List.dropWhile_cons]
    by_cases hp : p a
    · rw [if_pos hp]
      simp
      omega
    · rw [if_neg hp]

theorem dropWhile_dropWhile (p : Char → Bool) (l : List Char) :
    (l.dropWhile p).dropWhile p = l.dropWhile p := by
  cases h : l.dropWhile p with
  | nil => rfl
  | cons z t =>
    rw [List.dropWhile_cons, if_neg (by simp [dropWhile_head_false h])]

theorem trimList_idem (l : List Char) : trimList (trimList l) = trimList l := by
  have hA : List.dropWhile isWsC (trimList l) = trimList l := by
    cases hb : trimList l with
    | nil => rfl
    | cons z t =>
      have hb2 : ((l.dropWhile isWsC).reverse.dropWhile isWsC).reverse = z :: t := hb
      have hpre : ∃ s, l.dropWhile isWsC = z :: (t ++ s) := by
        refine ⟨((l.dropWhile isWsC).reverse.takeWhile isWsC).reverse, ?_⟩
        have h3 := List.takeWhile_append_dropWhile (p := isWsC)
          (l := (l.dropWhile isWsC).reverse)
        have h4 : l.dropWhile isWsC =
            (z :: t) ++ ((l.dropWhile isWsC).reverse.takeWhile isWsC).reverse := by
          calc l.dropWhile isWsC = (l.dropWhile isWsC).reverse.reverse := by
                rw [List.reverse_reverse]
          _ = ((l.dropWhile isWsC).reverse.takeWhile isWsC
                ++ (l.dropWhile isWsC).reverse.dropWhile isWsC).reverse := by rw [h3]
          _ = ((l.dropWhile isWsC).reverse.dropWhile isWsC).reverse
                ++ ((l.dropWhile isWsC).reverse.takeWhile isWsC).reverse := by
                rw [List.reverse_append]
          _ = (z :: t) ++ ((l.dropWhile isWsC).reverse.takeWhile isWsC).reverse := by
                rw [hb2]
        simpa using h4
      obtain ⟨s, hs⟩ := hpre
      have hda : List.dropWhile isWsC (z :: (t ++ s)) = z :: (t ++ s) := by
        rw [← hs]
        exact dropWhile_dropWhile isWsC l
      have hz : isWsC z = false := by
        by_cases hw : isWsC z
        · rw [List.dropWhile_cons, if_pos (by simpa using hw)] at hda
          have hlen := congrArg List.length hda
          have hle := dropWhile_len_le isWsC (t ++ s)
          simp only [List.length_cons, List.length_append] at hlen hle
          omega
        · simpa using hw
      rw [List.dropWhile_cons, if_neg (by simp [hz])]
  calc trimList (trimList l)
      = ((List.dropWhile isWsC (trimList l)).reverse.dropWhile isWsC).reverse := rfl
    _ = ((trimList l).reverse.dropWhile isWsC).reverse := by rw [hA]
    _ = ((((l.dropWhile isWsC).reverse.dropWhile isWsC).reverse).reverse.dropWhile
          isWsC).reverse := rfl
    _ = (((l.dropWhile isWsC).reverse.dropWhile isWsC).dropWhile isWsC).reverse := by
          rw [List.reverse_reverse]
    _ = ((l.dropWhile isWsC).reverse.dropWhile isWsC).reverse := by
          rw [dropWhile_dropWhile]
    _ = trimList l := rfl

theorem parseJsonL_trim (l : List Char) : parseJsonL (trimList l) = parseJsonL l := by
  unfold parseJsonL
  rw [trimList_idem]

theorem hasTriple_tail {c : Char} {r : List Char} (h : hasTriple (c :: r) = false) :
    hasTriple r = false := by
  rw [hasTriple.eq_def] at h
  split at h
  · exact absurd h (by simp)
  · rename_i c2 r2 heq
    injection heq with h1 h2
    subst h2
    exact h
  · rename_i heq
    simp at heq

theorem stripTicksJson_id {l : List Char} (h : hasTriple l = false) :
    stripTicksJson l = l := by
  induction l with
  | nil => rfl
  | cons c r ih =>
    rw [stripTicksJson.eq_def]
    split
    · rename_i heq
      exfalso
      rw [heq] at h
      simp [hasTriple] at h
    · rename_i heq
      exfalso
      rw [heq] at h
      simp [hasTriple] at h
    · rename_i c2 r2 heq
      injection heq with h1 h2
      subst h1
      subst h2
      rw [ih (hasTriple_tail h)]
    · rename_i heq
      simp at heq

theorem stripTicks_id {l : List Char} (h : hasTriple l = false) :
    stripTicks l = l := by
  induction l with
  | nil => rfl
  | cons c r ih =>
    rw [stripTicks.eq_def]
    split
    · rename_i heq
      exfalso
      rw [heq] at h
      simp [hasTriple] at h
    · rename_i heq
      exfalso
      rw [heq] at h
      simp [hasTriple] at h
    · rename_i c2 r2 heq
      injection heq with h1 h2
      subst h1
      subst h2
      rw [ih (hasTriple_tail h)]
    · rename_i heq
      simp at heq

/-- Claim C3 (amended): for every valid-JSON input that contains no run of
three consecutive backticks, `cleanJSONResponse` leaves the parsed value
unchanged: the fence-stripping passes are the identity, the trim does not
change what `JSON.parse` sees, the strict parse then succeeds, and the text
is returned before any repair step. -/
theorem c3_valid_json_roundtrip (x : String) (v : Json)
    (hv : parseJson x = some v) (hf : hasTriple x.data = false) :
    parseJson (cleanJSONResponse x) = some v := by
  have hne : ¬ x.data = [] := by
    intro h0
    rw [parseJson, parseJsonL, h0] at hv
    simp [trimList, parseValue] at hv
  unfold cleanJSONResponse
  rw [if_neg hne]
  show parseJsonL (cleanL x.data) = some v
  unfold cleanL
  rw [stripTicksJson_id hf, stripTicks_id hf]
  have hparse : parseJsonL (trimList x.data) = some v := by
    rw [parseJsonL_trim]
    exact hv
  simp only [hparse, Option.isSome, if_true]

/-- Claim C3 (counterexample): the string `["```"]` is valid JSON, but the
fence-stripping pass deletes the three backticks inside the string literal,
so the sanitizer returns `[""]` and the parsed value changes. -/
theorem c3_fence_in_string_counterexample :
    parseJson "[\"```\"]" = some (.arr [.str "```"]) ∧
    cleanJSONResponse "[\"```\"]" = "[\"\"]" ∧
    parseJson (cleanJSONResponse "[\"```\"]") = some (.arr [.str ""]) ∧
    (some (Json.arr [Json.str "```"]) = some (Json.arr [Json.str ""]) → False) :=
  ⟨rfl, rfl, rfl, by intro h; simp at h⟩

theorem c3_roundtrip_witness :
    parseJson (cleanJSONResponse "[1, \"a\"]") = some (.arr [.num "1", .str "a"]) :=
  c3_valid_json_roundtrip "[1, \"a\"]" (.arr [.num "1", .str "a"]) rfl rfl

theorem plainChar_ne {c x : Char} (h : plainChar c = true) (hx : plainChar x = false) :
    c ≠ x := by
  intro he
  rw [he, hx] at h
  cases h

theorem plainChar_facts {c : Char} (h : plainChar c = true) :
    c ≠ '"' ∧ c ≠ '\\' ∧ c ≠ '\x7b' ∧ c ≠ '\x7d' ∧ c ≠ '[' ∧ c ≠ ']' ∧ c ≠ ':'
      ∧ c ≠ '`' ∧ 31 < c.toNat ∧ isWsC c = false := by
  have hws : isWsC c = false := by
    by_cases hw : isWsC c
    · have hc : ((c = ' ' ∨ c = '\t') ∨ c = '\n') ∨ c = '\x0d' := by
        simpa [isWsC] using hw
      rcases hc with ((rfl | rfl) | rfl) | rfl <;> exact absurd h (by decide)
    · simpa using hw
  have hgt : 31 < c.toNat := by
    simp [plainChar] at h
    omega
  exact ⟨plainChar_ne h (by decide), plainChar_ne h (by decide), plainChar_ne h (by decide),
    plainChar_ne h (by decide), plainChar_ne h (by decide), plainChar_ne h (by decide),
    plainChar_ne h (by decide), plainChar_ne h (by decide), hgt, hws⟩

theorem parseStrBody_noClose (s : List Char) (hs : ∀ c ∈ s, plainChar c = true) :
    parseStrBody s = none := by
  induction s with
  | nil => rfl
  | cons c r ih =>
    obtain ⟨hq, hbs, _, _, _, _, _, _, hgt, _⟩ := plainChar_facts (hs c (List.mem_cons_self c r))
    rw [parseStrBody.eq_def]
    split
    all_goals first
      | rfl
      | exact absurd rfl hq
      | exact absurd rfl hbs
      | rw [if_pos (by simpa using hgt), ih (fun x hx => hs x (List.mem_cons_of_mem c hx)),
          consStr]
      | (rename_i heq
         injection heq with ha hb
         first
           | exact absurd ha hq
           | exact absurd ha hbs)
      | (rename_i heq
         injection heq with ha hb
         subst ha
         subst hb
         rw [if_pos (by simpa using hgt), ih (fun x hx => hs x (List.mem_cons_of_mem c hx)),
           consStr])
      | (rename_i heq
         exact absurd heq (by simp))

theorem parseStrBody_plain (s : List Char) (rest : List Char)
    (hs : ∀ c ∈ s, plainChar c = true) :
    parseStrBody (s ++ '"' :: rest) = some (s, rest) := by
  induction s with
  | nil => rfl
  | cons c r ih =>
    obtain ⟨hq, hbs, _, _, _, _, _, _, hgt, _⟩ := plainChar_facts (hs c (List.mem_cons_self c r))
    rw [List.cons_append, parseStrBody.eq_def]
    split
    all_goals first
      | rfl
      | exact absurd rfl hq
      | exact absurd rfl hbs
      | rw [if_pos (by simpa using hgt), ih (fun x hx => hs x (List.mem_cons_of_mem c hx)),
          consStr]
      | (rename_i heq
         injection heq with ha hb
         first
           | exact absurd ha hq
           | exact absurd ha hbs)
      | (rename_i heq
         injection heq with ha hb
         subst ha
         subst hb
         rw [if_pos (by simpa using hgt), ih (fun x hx => hs x (List.mem_cons_of_mem c hx)),
           consStr])
      | (rename_i heq
         exact absurd heq (by simp))

theorem getLast?_mem_chars {l : List Char} {x : Char} (h : l.getLast? = some x) : x ∈ l := by
  obtain ⟨hne, hx⟩ := List.mem_getLast?_eq_getLast (x := x) (l := l) (by rw [h]; rfl)
  rw [hx]
  exact List.getLast_mem hne

theorem hasTriple_of_no_tick {l : List Char} (h : ∀ c ∈ l, c ≠ '`') :
    hasTriple l = false := by
  induction l with
  | nil => rfl
  | cons c r ih =>
    rw [hasTriple.eq_def]
    split
    · rename_i heq
      injection heq with h1 h2
      exact absurd h1 (h c (List.mem_cons_self c r))
    · rename_i c2 r2 heq
      injection heq with h1 h2
      subst h1
      subst h2
      exact ih (fun x hx => h x (List.mem_cons_of_mem c hx))
    · rename_i heq
      simp at heq

theorem fixBackslashes_cons_other {c : Char} (r : List Char) (hc : c ≠ '\\') :
    fixBackslashes (c :: r) = c :: fixBackslashes r := by
  rw [fixBackslashes.eq_def]
  split
  · rename_i heq
    simp at heq
  · rename_i heq
    injection heq with h1 h2
    exact absurd h1 hc
  · rename_i c2 r2 heq
    injection heq with h1 h2
    subst h1
    subst h2
    rfl

theorem fixBackslashes_append_noBS (a b : List Char) (ha : ∀ c ∈ a, c ≠ '\\') :
    fixBackslashes (a ++ b) = a ++ fixBackslashes b := by
  induction a with
  | nil => simp
  | cons c r ih =>
    rw [List.cons_append, fixBackslashes_cons_other _ (ha c (List.mem_cons_self c r)),
      ih (fun x hx => ha x (List.mem_cons_of_mem c hx)), List.cons_append]

theorem fixBackslashes_noBS (l : List Char) (h : ∀ c ∈ l, c ≠ '\\') :
    fixBackslashes l = l := by
  induction l with
  | nil => rfl
  | cons c r ih =>
    rw [fixBackslashes_cons_other _ (h c (List.mem_cons_self c r)),
      ih (fun x hx => h x (List.mem_cons_of_mem c hx))]

theorem countC_cons (c x : Char) (r : List Char) :
    countC c (x :: r) = (if x = c then 1 else 0) + countC c r := by
  simp only [countC, List.foldr_cons]
  split <;> omega

theorem countC_append (c : Char) (a b : List Char) :
    countC c (a ++ b) = countC c a + countC c b := by
  induction a with
  | nil => simp [countC]
  | cons x r ih =>
    rw [List.cons_append, countC_cons, countC_cons, ih]
    omega

theorem countC_zero (c : Char) (l : List Char) (h : ∀ x ∈ l, x ≠ c) :
    countC c l = 0 := by
  induction l with
  | nil => rfl
  | cons x r ih =>
    rw [countC_cons, if_neg (h x (List.mem_cons_self x r)),
      ih (fun y hy => h y (List.mem_cons_of_mem x hy))]

theorem lastIdx_not_mem (c : Char) (l : List Char) (h : ∀ x ∈ l, x ≠ c) :
    lastIdx c l = -1 := by
  induction l with
  | nil => rfl
  | cons x r ih =>
    simp only [lastIdx]
    rw [ih (fun y hy => h y (List.mem_cons_of_mem x hy))]
    rw [if_neg (by omega), if_neg (h x (List.mem_cons_self x r))]

theorem lastIdx_append_right_none (c : Char) (a b : List Char) (hb : ∀ x ∈ b, x ≠ c) :
    lastIdx c (a ++ b) = lastIdx c a := by
  induction a with
  | nil => simpa using lastIdx_not_mem c b hb
  | cons x r ih =>
    simp only [List.cons_append, lastIdx, List.append_eq]
    rw [ih]

theorem dropWhile_all_false {p : Char → Bool} {l : List Char} (h : ∀ c ∈ l, p c = false) :
    l.dropWhile p = l := by
  cases l with
  | nil => rfl
  | cons c r =>
    rw [List.dropWhile_cons, if_neg (by simp [h c (List.mem_cons_self c r)])]

theorem trimList_eq_self {l : List Char} {a z : Char}
    (ha1 : l.head? = some a) (ha2 : isWsC a = false)
    (hz1 : l.getLast? = some z) (hz2 : isWsC z = false) : trimList l = l := by
  cases l with
  | nil => simp at ha1
  | cons a0 t =>
    have ha0 : a0 = a := by simpa using ha1
    subst ha0
    unfold trimList
    rw [List.dropWhile_cons, if_neg (by simp [ha2])]
    cases hr : (a0 :: t).reverse with
    | nil => simp at hr
    | cons z0 t2 =>
      have hh : (a0 :: t).reverse.head? = some z0 := by rw [hr]; rfl
      rw [List.head?_reverse] at hh
      have hz0 : z0 = z := by
        rw [hz1] at hh
        exact Option.some.inj hh.symm
      rw [List.dropWhile_cons]
      rw [if_neg (by simp [hz0, hz2])]
      rw [← hr]
      exact List.reverse_reverse (a0 :: t)

theorem obj1_parse (f : Nat) (rest : List Char) :
    parseValue (f + 3) ('\x7b' :: '"' :: 'a' :: '"' :: ':' :: '1' :: '\x7d' :: rest) =
      some (.obj [("a", .num "1")], rest) := rfl

theorem quote_parse_none (g : Nat) (s : List Char) (hsb : parseStrBody s = none) :
    parseValue (g + 1) ('"' :: s) = none := by
  simp [parseValue, hsb]

theorem fieldsB_none (g : Nat) (s : List Char) (hsb : parseStrBody s = none) :
    parseFields (g + 2) ('"' :: 'b' :: '"' :: ':' :: '"' :: s) = none := by
  have h2 := quote_parse_none g s hsb
  show (match parseValue (g + 1) ('"' :: s) with
        | none => none
        | some (v, r3) =>
          match dropWs r3 with
          | ',' :: r4 =>
            match parseFields (g + 1) (dropWs r4) with
            | some (fs, r5) => some (("b", v) :: fs, r5)
            | none => none
          | '\x7d' :: r4 => some ([("b", v)], r4)
          | _ => none)
      = none
  rw [h2]

theorem obj2_none (g : Nat) (s : List Char) (hsb : parseStrBody s = none) :
    parseValue (g + 3) ('\x7b' :: '"' :: 'b' :: '"' :: ':' :: '"' :: s) = none := by
  have h3 := fieldsB_none g s hsb
  show (match parseFields (g + 2) ('"' :: 'b' :: '"' :: ':' :: '"' :: s) with
        | some (fs, rest) => some (Json.obj fs, rest)
        | none => none)
      = none
  rw [h3]

theorem elems2_none (g : Nat) (s : List Char) (hsb : parseStrBody s = none) :
    parseElems (g + 4) ('\x7b' :: '"' :: 'b' :: '"' :: ':' :: '"' :: s) = none := by
  have h4 := obj2_none g s hsb
  show (match parseValue (g + 3) ('\x7b' :: '"' :: 'b' :: '"' :: ':' :: '"' :: s) with
        | none => none
        | some (v, r) =>
          match dropWs r with
          | ',' :: r2 =>
            match parseElems (g + 3) (dropWs r2) with
            | some (vs, r3) => some (v :: vs, r3)
            | none => none
          | ']' :: r2 => some ([v], r2)
          | _ => none)
      = none
  rw [h4]

theorem elems1_none (g : Nat) (s : List Char) (hsb : parseStrBody s = none) :
    parseElems (g + 5)
      ('\x7b' :: '"' :: 'a' :: '"' :: ':' :: '1' :: '\x7d' :: ',' ::
        '\x7b' :: '"' :: 'b' :: '"' :: ':' :: '"' :: s) = none := by
  have h5 := elems2_none g s hsb
  show (match parseElems (g + 4) ('\x7b' :: '"' :: 'b' :: '"' :: ':' :: '"' :: s) with
        | some (vs, r3) => some (Json.obj [("a", Json.num "1")] :: vs, r3)
        | none => none)
      = none
  rw [h5]

theorem top5_none (g : Nat) (s : List Char) (hsb : parseStrBody s = none) :
    parseValue (g + 6)
      ('[' :: '\x7b' :: '"' :: 'a' :: '"' :: ':' :: '1' :: '\x7d' :: ',' ::
        '\x7b' :: '"' :: 'b' :: '"' :: ':' :: '"' :: s) = none := by
  have h6 := elems1_none g s hsb
  show (match parseElems (g + 5)
          ('\x7b' :: '"' :: 'a' :: '"' :: ':' :: '1' :: '\x7d' :: ',' ::
            '\x7b' :: '"' :: 'b' :: '"' :: ':' :: '"' :: s) with
        | some (vs, rest) => some (Json.arr vs, rest)
        | none => none)
      = none
  rw [h6]

theorem trimC5_id (s : List Char) (hs : ∀ c ∈ s, plainChar c = true) :
    trimList (frameC5 ++ s) = frameC5 ++ s := by
  cases s with
  | nil =>
    rw [List.append_nil]
    decide
  | cons c0 s2 =>
    refine trimList_eq_self (a := '[') (z := (c0 :: s2).getLast (by simp)) rfl rfl ?_ ?_
    · rw [List.getLast?_append_of_ne_nil _ (by simp)]
      exact (List.getLast?_eq_getLast (c0 :: s2) (by simp)).symm ▸ rfl
    · exact (plainChar_facts (hs _ (List.getLast_mem (by simp)))).2.2.2.2.2.2.2.2.2

theorem parseC5_truncated_none (s : List Char) (hs : ∀ c ∈ s, plainChar c = true) :
    parseJsonL (frameC5 ++ s) = none := by
  have hsb : parseStrBody s = none := parseStrBody_noClose s hs
  unfold parseJsonL
  rw [trimC5_id s hs]
  show (match parseValue
      (('[' :: '\x7b' :: '"' :: 'a' :: '"' :: ':' :: '1' :: '\x7d' :: ',' ::
        '\x7b' :: '"' :: 'b' :: '"' :: ':' :: '"' :: s).length + 1)
      ('[' :: '\x7b' :: '"' :: 'a' :: '"' :: ':' :: '1' :: '\x7d' :: ',' ::
        '\x7b' :: '"' :: 'b' :: '"' :: ':' :: '"' :: s) with
    | some (v, []) => some v
    | _ => none) = none
  rw [show ('[' :: '\x7b' :: '"' :: 'a' :: '"' :: ':' :: '1' :: '\x7d' :: ',' ::
      '\x7b' :: '"' :: 'b' :: '"' :: ':' :: '"' :: s).length + 1 = (s.length + 10) + 6 from by
    simp]
  rw [top5_none (s.length + 10) s hsb]

theorem endsWithCloser_eq_false {l : List Char} {z : Char} (hz : l.getLast? = some z)
    (h1 : z ≠ ']') (h2 : z ≠ '\x7d') : endsWithCloser l = false := by
  unfold endsWithCloser
  rw [hz]
  split
  · rename_i heq
    exact absurd (Option.some.inj heq) h1
  · rename_i heq
    exact absurd (Option.some.inj heq) h2
  · rfl

theorem frameC5_no_tick : ∀ c ∈ frameC5, c ≠ '`' := by decide

theorem frameC5_no_bs : ∀ c ∈ frameC5, c ≠ '\\' := by decide

theorem cleanC5 (s : List Char) (hs : ∀ c ∈ s, plainChar c = true) :
    cleanL (frameC5 ++ s) = frameC5 ++ s ++ ['"', '\x7d', ']'] := by
  have hnt : ∀ c ∈ frameC5 ++ s, c ≠ '`' := by
    intro c hc
    rcases List.mem_append.mp hc with hc | hc
    · exact frameC5_no_tick c hc
    · exact (plainChar_facts (hs c hc)).2.2.2.2.2.2.2.1
  have hnb : ∀ c ∈ frameC5 ++ s, c ≠ '\\' := by
    intro c hc
    rcases List.mem_append.mp hc with hc | hc
    · exact frameC5_no_bs c hc
    · exact (plainChar_facts (hs c hc)).2.1
  have htriple := hasTriple_of_no_tick hnt
  have hfix : fixBackslashes (frameC5 ++ s) = frameC5 ++ s := fixBackslashes_noBS _ hnb
  have hend : endsWithCloser (frameC5 ++ s) = false := by
    cases s with
    | nil =>
      rw [List.append_nil]
      decide
    | cons c0 s2 =>
      refine endsWithCloser_eq_false (z := (c0 :: s2).getLast (by simp)) ?_ ?_ ?_
      · rw [List.getLast?_append_of_ne_nil _ (by simp)]
        exact (List.getLast?_eq_getLast (c0 :: s2) (by simp)).symm ▸ rfl
      · exact (plainChar_facts (hs _ (List.getLast_mem (by simp)))).2.2.2.2.2.1
      · exact (plainChar_facts (hs _ (List.getLast_mem (by simp)))).2.2.2.1
  have hrepair : repairTruncated (frameC5 ++ s) = frameC5 ++ s ++ ['"', '\x7d', ']'] := by
    have hq_s : ∀ x ∈ s, x ≠ '"' := fun x hx => (plainChar_facts (hs x hx)).1
    have hcol_s : ∀ x ∈ s, x ≠ ':' := fun x hx => (plainChar_facts (hs x hx)).2.2.2.2.2.2.1
    have hlq : lastIdx '"' (frameC5 ++ s) = 14 := by
      rw [lastIdx_append_right_none _ _ _ hq_s]
      decide
    have hlc : lastIdx ':' (frameC5 ++ s) = 13 := by
      rw [lastIdx_append_right_none _ _ _ hcol_s]
      decide
    have hob : ∀ x ∈ s, x ≠ '\x7b' := fun x hx => (plainChar_facts (hs x hx)).2.2.1
    have hcb : ∀ x ∈ s, x ≠ '\x7d' := fun x hx => (plainChar_facts (hs x hx)).2.2.2.1
    have hobk : ∀ x ∈ s, x ≠ '[' := fun x hx => (plainChar_facts (hs x hx)).2.2.2.2.1
    have hcbk : ∀ x ∈ s, x ≠ ']' := fun x hx => (plainChar_facts (hs x hx)).2.2.2.2.2.1
    unfold repairTruncated
    rw [hlq, hlc, if_pos (by norm_num)]
    show (((frameC5 ++ s) ++ ['"']) ++
        List.replicate
          (countC '\x7b' ((frameC5 ++ s) ++ ['"']) - countC '\x7d' ((frameC5 ++ s) ++ ['"']))
          '\x7d') ++
        List.replicate
          (countC '[' ((frameC5 ++ s) ++ ['"']) - countC ']' ((frameC5 ++ s) ++ ['"'])) ']'
      = frameC5 ++ s ++ ['"', '\x7d', ']']
    rw [show countC '\x7b' ((frameC5 ++ s) ++ ['"']) - countC '\x7d' ((frameC5 ++ s) ++ ['"'])
        = 1 from by
      rw [countC_append, countC_append, countC_append, countC_append,
        countC_zero '\x7b' s hob, countC_zero '\x7d' s hcb]
      decide]
    rw [show countC '[' ((frameC5 ++ s) ++ ['"']) - countC ']' ((frameC5 ++ s) ++ ['"'])
        = 1 from by
      rw [countC_append, countC_append, countC_append, countC_append,
        countC_zero '[' s hobk, countC_zero ']' s hcbk]
      decide]
    simp [List.append_assoc]
  unfold cleanL
  rw [stripTicksJson_id htriple, stripTicks_id htriple, trimC5_id s hs]
  show (if (parseJsonL (frameC5 ++ s)).isSome = true then frameC5 ++ s
    else if endsWithCloser (fixBackslashes (frameC5 ++ s)) = true
      then fixBackslashes (frameC5 ++ s)
      else repairTruncated (fixBackslashes (frameC5 ++ s)))
    = frameC5 ++ s ++ ['"', '\x7d', ']']
  rw [parseC5_truncated_none s hs, hfix, hend]
  simp only [Option.isSome_none, Bool.false_eq_true, if_false]
  exact hrepair

theorem quote_parse_ok (g : Nat) (s rest : List Char) (hs : ∀ c ∈ s, plainChar c = true) :
    parseValue (g + 1) ('"' :: (s ++ '"' :: rest)) = some (.str (String.mk s), rest) := by
  have h := parseStrBody_plain s rest hs
  show (match parseStrBody (s ++ '"' :: rest) with
        | some (cs, r) => some (Json.str (String.mk cs), r)
        | none => none)
      = some (Json.str (String.mk s), rest)
  rw [h]

theorem fieldsB_ok (g : Nat) (s : List Char) (hs : ∀ c ∈ s, plainChar c = true) :
    parseFields (g + 2) ('"' :: 'b' :: '"' :: ':' :: '"' :: (s ++ ['"', '\x7d', ']'])) =
      some ([("b", Json.str (String.mk s))], [']']) := by
  have h2 := quote_parse_ok g s ['\x7d', ']'] hs
  show (match parseValue (g + 1) ('"' :: (s ++ ['"', '\x7d', ']'])) with
        | none => none
        | some (v, r3) =>
          match dropWs r3 with
          | ',' :: r4 =>
            match parseFields (g + 1) (dropWs r4) with
            | some (fs, r5) => some (("b", v) :: fs, r5)
            | none => none
          | '\x7d' :: r4 => some ([("b", v)], r4)
          | _ => none)
      = some ([("b", Json.str (String.mk s))], [']'])
  rw [h2]
  rfl

theorem obj2_ok (g : Nat) (s : List Char) (hs : ∀ c ∈ s, plainChar c = true) :
    parseValue (g + 3) ('\x7b' :: '"' :: 'b' :: '"' :: ':' :: '"' :: (s ++ ['"', '\x7d', ']'])) =
      some (.obj [("b", Json.str (String.mk s))], [']']) := by
  have h3 := fieldsB_ok g s hs
  show (match parseFields (g + 2) ('"' :: 'b' :: '"' :: ':' :: '"' :: (s ++ ['"', '\x7d', ']'])) with
        | some (fs, rest) => some (Json.obj fs, rest)
        | none => none)
      = some (Json.obj [("b", Json.str (String.mk s))], [']'])
  rw [h3]

theorem elems2_ok (g : Nat) (s : List Char) (hs : ∀ c ∈ s, plainChar c = true) :
    parseElems (g + 4) ('\x7b' :: '"' :: 'b' :: '"' :: ':' :: '"' :: (s ++ ['"', '\x7d', ']'])) =
      some ([Json.obj [("b", Json.str (String.mk s))]], []) := by
  have h4 := obj2_ok g s hs
  show (match parseValue (g + 3)
          ('\x7b' :: '"' :: 'b' :: '"' :: ':' :: '"' :: (s ++ ['"', '\x7d', ']'])) with
        | none => none
        | some (v, r) =>
          match dropWs r with
          | ',' :: r2 =>
            match parseElems (g + 3) (dropWs r2) with
            | some (vs, r3) => some (v :: vs, r3)
            | none => none
          | ']' :: r2 => some ([v], r2)
          | _ => none)
      = some ([Json.obj [("b", Json.str (String.mk s))]], [])
  rw [h4]
  rfl

theorem elems1_ok (g : Nat) (s : List Char) (hs : ∀ c ∈ s, plainChar c = true) :
    parseElems (g + 5)
      ('\x7b' :: '"' :: 'a' :: '"' :: ':' :: '1' :: '\x7d' :: ',' ::
        '\x7b' :: '"' :: 'b' :: '"' :: ':' :: '"' :: (s ++ ['"', '\x7d', ']'])) =
      some ([Json.obj [("a", Json.num "1")], Json.obj [("b", Json.str (String.mk s))]], []) := by
  have h5 := elems2_ok g s hs
  show (match parseElems (g + 4)
          ('\x7b' :: '"' :: 'b' :: '"' :: ':' :: '"' :: (s ++ ['"', '\x7d', ']'])) with
        | some (vs, r3) => some (Json.obj [("a", Json.num "1")] :: vs, r3)
        | none => none)
      = some ([Json.obj [("a", Json.num "1")], Json.obj [("b", Json.str (String.mk s))]], [])
  rw [h5]

theorem top5_ok (g : Nat) (s : List Char) (hs : ∀ c ∈ s, plainChar c = true) :
    parseValue (g + 6)
      ('[' :: '\x7b' :: '"' :: 'a' :: '"' :: ':' :: '1' :: '\x7d' :: ',' ::
        '\x7b' :: '"' :: 'b' :: '"' :: ':' :: '"' :: (s ++ ['"', '\x7d', ']'])) =
      some (.arr [Json.obj [("a", Json.num "1")], Json.obj [("b", Json.str (String.mk s))]],
        []) := by
  have h6 := elems1_ok g s hs
  show (match parseElems (g + 5)
          ('\x7b' :: '"' :: 'a' :: '"' :: ':' :: '1' :: '\x7d' :: ',' ::
            '\x7b' :: '"' :: 'b' :: '"' :: ':' :: '"' :: (s ++ ['"', '\x7d', ']'])) with
        | some (vs, rest) => some (Json.arr vs, rest)
        | none => none)
      = some (Json.arr [Json.obj [("a", Json.num "1")], Json.obj [("b", Json.str (String.mk s))]],
        [])
  rw [h6]

theorem parseC5_repaired (s : List Char) (hs : ∀ c ∈ s, plainChar c = true) :
    parseJsonL ((frameC5 ++ s) ++ ['"', '\x7d', ']']) =
      some (.arr [Json.obj [("a", Json.num "1")], Json.obj [("b", Json.str (String.mk s))]]) := by
  have htrim : trimList ((frameC5 ++ s) ++ ['"', '\x7d', ']'])
      = (frameC5 ++ s) ++ ['"', '\x7d', ']'] := by
    refine trimList_eq_self (a := '[') (z := ']') rfl rfl ?_ rfl
    rw [List.getLast?_append_of_ne_nil _ (by simp)]
    rfl
  unfold parseJsonL
  rw [htrim]
  show (match parseValue ((((frameC5 ++ s) ++ ['"', '\x7d', ']']).length) + 1)
          ((frameC5 ++ s) ++ ['"', '\x7d', ']']) with
        | some (v, []) => some v
        | _ => none)
      = some (.arr [Json.obj [("a", Json.num "1")], Json.obj [("b", Json.str (String.mk s))]])
  rw [show ((frameC5 ++ s) ++ ['"', '\x7d', ']']).length + 1 = (s.length + 13) + 6 from by
    simp [frameC5]]
  rw [show (frameC5 ++ s) ++ ['"', '\x7d', ']'] =
    '[' :: '\x7b' :: '"' :: 'a' :: '"' :: ':' :: '1' :: '\x7d' :: ',' ::
      '\x7b' :: '"' :: 'b' :: '"' :: ':' :: '"' :: (s ++ ['"', '\x7d', ']']) from rfl]
  rw [top5_ok (s.length + 13) s hs]

/-- Claim C5 (amended): when the strict parse of the stripped-and-trimmed
text fails and the backslash-fixed text does not end in `]` or `}`, the
sanitizer returns exactly that text with a closing quote appended when the
last `"` comes after the last `:`, then `count('{') - count('}')` closing
braces, then `count('[') - count(']')` closing brackets; and an input
truncated strictly inside a string value of the second record — after one
complete record — is repaired to parseable JSON in which the complete
leading record is unchanged. (As stated over ALL truncation points the
claim is false: a text truncated right after a complete record ends in `}`
and is not repaired at all.) -/
theorem c5_truncation_repair :
    (∀ x : String, x.data ≠ [] →
      parseJsonL (trimList (stripTicks (stripTicksJson x.data))) = none →
      endsWithCloser (fixBackslashes (trimList (stripTicks (stripTicksJson x.data)))) = false →
      cleanJSONResponse x =
        String.mk
          (repairTruncated (fixBackslashes (trimList (stripTicks (stripTicksJson x.data)))))) ∧
    (∀ u : List Char,
      repairTruncated u =
        (if lastIdx '"' u > lastIdx ':' u then u ++ ['"'] else u)
          ++ List.replicate
              (countC '\x7b' (if lastIdx '"' u > lastIdx ':' u then u ++ ['"'] else u)
                - countC '\x7d' (if lastIdx '"' u > lastIdx ':' u then u ++ ['"'] else u))
              '\x7d'
          ++ List.replicate
              (countC '[' (if lastIdx '"' u > lastIdx ':' u then u ++ ['"'] else u)
                - countC ']' (if lastIdx '"' u > lastIdx ':' u then u ++ ['"'] else u))
              ']') ∧
    (∀ s : List Char, (∀ c ∈ s, plainChar c = true) →
      cleanJSONResponse (String.mk (frameC5 ++ s)) =
        String.mk (frameC5 ++ s ++ ['"', '\x7d', ']']) ∧
      parseJson (cleanJSONResponse (String.mk (frameC5 ++ s))) =
        some (.arr [.obj [("a", .num "1")], .obj [("b", .str (String.mk s))]])) := by
  refine ⟨?_, fun u => rfl, ?_⟩
  · intro x hx hfail hend
    unfold cleanJSONResponse
    rw [if_neg hx]
    congr 1
    unfold cleanL
    show (if (parseJsonL (trimList (stripTicks (stripTicksJson x.data)))).isSome = true
          then trimList (stripTicks (stripTicksJson x.data))
          else if endsWithCloser
              (fixBackslashes (trimList (stripTicks (stripTicksJson x.data)))) = true
            then fixBackslashes (trimList (stripTicks (stripTicksJson x.data)))
            else repairTruncated (fixBackslashes (trimList (stripTicks (stripTicksJson x.data)))))
        = repairTruncated (fixBackslashes (trimList (stripTicks (stripTicksJson x.data))))
    rw [hfail, hend]
    simp
  · intro s hsp
    have hc := cleanC5 s hsp
    have hne : (String.mk (frameC5 ++ s)).data ≠ [] := by
      show frameC5 ++ s ≠ []
      simp [frameC5]
    have hclean : cleanJSONResponse (String.mk (frameC5 ++ s)) =
        String.mk (frameC5 ++ s ++ ['"', '\x7d', ']']) := by
      unfold cleanJSONResponse
      rw [if_neg hne]
      show String.mk (cleanL (frameC5 ++ s)) = _
      rw [hc]
    refine ⟨hclean, ?_⟩
    rw [hclean]
    show parseJsonL (frameC5 ++ s ++ ['"', '\x7d', ']']) = _
    exact parseC5_repaired s hsp

/-- Claim C5 (counterexample): the input `[{"a":1}` — an array truncated
immediately after one complete record — ends in `}`, so the repair step
does not fire and the sanitizer output still does not parse. -/
theorem c5_counterexample_truncated_after_record :
    cleanJSONResponse "[\x7b\"a\":1\x7d" = "[\x7b\"a\":1\x7d" ∧
    parseJson "[\x7b\"a\":1\x7d" = none ∧
    parseJson (cleanJSONResponse "[\x7b\"a\":1\x7d") = none :=
  ⟨rfl, rfl, rfl⟩

theorem c5_repair_witness :
    cleanJSONResponse "[\x7b\"a\":1\x7d,\x7b\"b\":\"xy" = "[\x7b\"a\":1\x7d,\x7b\"b\":\"xy\"\x7d]" ∧
    parseJson (cleanJSONResponse "[\x7b\"a\":1\x7d,\x7b\"b\":\"xy") =
      some (.arr [.obj [("a", .num "1")], .obj [("b", .str "xy")]]) := by
  have h := c5_truncation_repair.2.2 ['x', 'y'] (by decide)
  exact ⟨h.1, h.2⟩

theorem doubledAt_succ (l : List Char) (c : Char) (i : Nat) :
    doubledAt (c :: l) (i + 1) = doubledAt l i := rfl

theorem doubleSpec_cons (c : Char) (r : List Char) :
    doubleSpec (c :: r) = doubledAt (c :: r) 0 ++ doubleSpec r := by
  unfold doubleSpec
  rw [List.length_cons, List.range_succ_eq_map, List.foldr_cons, List.foldr_map]
  congr 1

theorem doubledAt_zero_bs (r : List Char) :
    doubledAt ('\\' :: r) 0 = if okEscNext r then ['\\'] else ['\\', '\\'] := rfl

theorem doubledAt_zero_of_ne {c : Char} (r : List Char) (hc : c ≠ '\\') :
    doubledAt (c :: r) 0 = [c] := by
  unfold doubledAt
  split
  · rename_i heq
    have : c = '\\' := by simpa using heq
    exact absurd this hc
  · rename_i c2 hne heq
    have : c = c2 := by simpa using heq
    rw [this]
  · rename_i heq
    simp at heq

theorem fixBackslashes_eq_doubleSpec (l : List Char) : fixBackslashes l = doubleSpec l := by
  induction l with
  | nil => rfl
  | cons c r ih =>
    rw [doubleSpec_cons]
    by_cases hc : c = '\\'
    · subst hc
      rw [doubledAt_zero_bs,
        show fixBackslashes ('\\' :: r) =
          if okEscNext r then '\\' :: fixBackslashes r
          else '\\' :: '\\' :: fixBackslashes r from rfl]
      by_cases ho : okEscNext r
      · rw [if_pos ho, if_pos ho, ih]
        rfl
      · rw [if_neg ho, if_neg ho, ih]
        rfl
    · rw [fixBackslashes_cons_other r hc, doubledAt_zero_of_ne r hc, ih]
      rfl

theorem escClass_ne {c x : Char} (h : escClassChar c = false) (hx : escClassChar x = true) :
    c ≠ x := by
  intro he
  rw [he, hx] at h
  cases h

theorem sb4_none (c : Char) (X : List Char) (hcp : plainChar c = true)
    (hce : escClassChar c = false) :
    parseStrBody ('\\' :: c :: X) = none := by
  obtain ⟨hq, hbs, _, _, _, _, _, _, _, _⟩ := plainChar_facts hcp
  have hb := escClass_ne hce (show escClassChar 'b' = true from rfl)
  have hf := escClass_ne hce (show escClassChar 'f' = true from rfl)
  have hn := escClass_ne hce (show escClassChar 'n' = true from rfl)
  have hr := escClass_ne hce (show escClassChar 'r' = true from rfl)
  have ht := escClass_ne hce (show escClassChar 't' = true from rfl)
  have hu := escClass_ne hce (show escClassChar 'u' = true from rfl)
  have hsl := escClass_ne hce (show escClassChar '/' = true from rfl)
  rw [parseStrBody.eq_def]
  split
  · rename_i heq
    simp at heq
  · rename_i heq
    injection heq with h1 h2
    simp at h1
  · rename_i e1 e2 e3 e4 r2 heq
    injection heq with hx hy
    injection hy with hy1 hy2
    exact absurd hy1 hu
  · rename_i e r2 heq
    injection heq with hx hy
    injection hy with hy1 hy2
    subst hy1
    rw [if_neg (by simp [hu]), if_neg (by simp [hq, hbs, hsl]), if_neg (by simp [hb]),
      if_neg (by simp [hf]), if_neg (by simp [hn]), if_neg (by simp [hr]),
      if_neg (by simp [ht])]
  · rename_i heq
    injection heq with h1 h2
    simp at h2
  · rename_i c2 r2 hne1 hne2 hne3 hne4 hne5 heq
    injection heq with h1 h2
    subst h1
    exact (hne4 c X rfl h2.symm).elim

theorem v4_none (g : Nat) (c : Char) (X : List Char) (hcp : plainChar c = true)
    (hce : escClassChar c = false) :
    parseValue (g + 1) ('"' :: '\\' :: c :: X) = none := by
  have h := sb4_none c X hcp hce
  show (match parseStrBody ('\\' :: c :: X) with
        | some (cs, rest) => some (Json.str (String.mk cs), rest)
        | none => none)
      = none
  rw [h]

theorem f4_none (g : Nat) (c : Char) (X : List Char) (hcp : plainChar c = true)
    (hce : escClassChar c = false) :
    parseFields (g + 2) ('"' :: 'x' :: '"' :: ':' :: ' ' :: '"' :: '\\' :: c :: X) = none := by
  have h := v4_none g c X hcp hce
  show (match parseValue (g + 1) ('"' :: '\\' :: c :: X) with
        | none => none
        | some (v, r3) =>
          match dropWs r3 with
          | ',' :: r4 =>
            match parseFields (g + 1) (dropWs r4) with
            | some (fs, r5) => some (("x", v) :: fs, r5)
            | none => none
          | '\x7d' :: r4 => some ([("x", v)], r4)
          | _ => none)
      = none
  rw [h]

theorem o4_none (g : Nat) (c : Char) (X : List Char) (hcp : plainChar c = true)
    (hce : escClassChar c = false) :
    parseValue (g + 3)
      ('\x7b' :: '"' :: 'x' :: '"' :: ':' :: ' ' :: '"' :: '\\' :: c :: X) = none := by
  have h := f4_none g c X hcp hce
  show (match parseFields (g + 2) ('"' :: 'x' :: '"' :: ':' :: ' ' :: '"' :: '\\' :: c :: X) with
        | some (fs, rest) => some (Json.obj fs, rest)
        | none => none)
      = none
  rw [h]

theorem e4_none (g : Nat) (c : Char) (X : List Char) (hcp : plainChar c = true)
    (hce : escClassChar c = false) :
    parseElems (g + 4)
      ('\x7b' :: '"' :: 'x' :: '"' :: ':' :: ' ' :: '"' :: '\\' :: c :: X) = none := by
  have h := o4_none g c X hcp hce
  show (match parseValue (g + 3)
          ('\x7b' :: '"' :: 'x' :: '"' :: ':' :: ' ' :: '"' :: '\\' :: c :: X) with
        | none => none
        | some (v, r) =>
          match dropWs r with
          | ',' :: r2 =>
            match parseElems (g + 3) (dropWs r2) with
            | some (vs, r3) => some (v :: vs, r3)
            | none => none
          | ']' :: r2 => some ([v], r2)
          | _ => none)
      = none
  rw [h]

theorem t4_none (g : Nat) (c : Char) (X : List Char) (hcp : plainChar c = true)
    (hce : escClassChar c = false) :
    parseValue (g + 5)
      ('[' :: '\x7b' :: '"' :: 'x' :: '"' :: ':' :: ' ' :: '"' :: '\\' :: c :: X) = none := by
  have h := e4_none g c X hcp hce
  show (match parseElems (g + 4)
          ('\x7b' :: '"' :: 'x' :: '"' :: ':' :: ' ' :: '"' :: '\\' :: c :: X) with
        | some (vs, rest) => some (Json.arr vs, rest)
        | none => none)
      = none
  rw [h]

theorem sb4_ok (c : Char) (s rest : List Char) (h : ∀ x ∈ c :: s, plainChar x = true) :
    parseStrBody ('\\' :: '\\' :: c :: (s ++ '"' :: rest)) = some ('\\' :: c :: s, rest) := by
  have h2 := parseStrBody_plain (c :: s) rest h
  show consStr '\\' (parseStrBody ((c :: s) ++ '"' :: rest)) = some ('\\' :: c :: s, rest)
  rw [h2]
  rfl

theorem v4_ok (g : Nat) (c : Char) (s : List Char) (h : ∀ x ∈ c :: s, plainChar x = true) :
    parseValue (g + 1) ('"' :: '\\' :: '\\' :: c :: (s ++ ['"', '\x7d', ']'])) =
      some (.str (String.mk ('\\' :: c :: s)), ['\x7d', ']']) := by
  have hsb := sb4_ok c s ['\x7d', ']'] h
  show (match parseStrBody ('\\' :: '\\' :: c :: (s ++ ['"', '\x7d', ']'])) with
        | some (cs, rest) => some (Json.str (String.mk cs), rest)
        | none => none)
      = some (Json.str (String.mk ('\\' :: c :: s)), ['\x7d', ']'])
  rw [hsb]

theorem f4_ok (g : Nat) (c : Char) (s : List Char) (h : ∀ x ∈ c :: s, plainChar x = true) :
    parseFields (g + 2)
      ('"' :: 'x' :: '"' :: ':' :: ' ' :: '"' :: '\\' :: '\\' :: c :: (s ++ ['"', '\x7d', ']'])) =
      some ([("x", Json.str (String.mk ('\\' :: c :: s)))], [']']) := by
  have hv := v4_ok g c s h
  show (match parseValue (g + 1) ('"' :: '\\' :: '\\' :: c :: (s ++ ['"', '\x7d', ']'])) with
        | none => none
        | some (v, r3) =>
          match dropWs r3 with
          | ',' :: r4 =>
            match parseFields (g + 1) (dropWs r4) with
            | some (fs, r5) => some (("x", v) :: fs, r5)
            | none => none
          | '\x7d' :: r4 => some ([("x", v)], r4)
          | _ => none)
      = some ([("x", Json.str (String.mk ('\\' :: c :: s)))], [']'])
  rw [hv]
  rfl

theorem o4_ok (g : Nat) (c : Char) (s : List Char) (h : ∀ x ∈ c :: s, plainChar x = true) :
    parseValue (g + 3)
      ('\x7b' :: '"' :: 'x' :: '"' :: ':' :: ' ' :: '"' :: '\\' :: '\\' :: c ::
        (s ++ ['"', '\x7d', ']'])) =
      some (.obj [("x", Json.str (String.mk ('\\' :: c :: s)))], [']']) := by
  have hf := f4_ok g c s h
  show (match parseFields (g + 2)
          ('"' :: 'x' :: '"' :: ':' :: ' ' :: '"' :: '\\' :: '\\' :: c ::
            (s ++ ['"', '\x7d', ']'])) with
        | some (fs, rest) => some (Json.obj fs, rest)
        | none => none)
      = some (Json.obj [("x", Json.str (String.mk ('\\' :: c :: s)))], [']'])
  rw [hf]

theorem e4_ok (g : Nat) (c : Char) (s : List Char) (h : ∀ x ∈ c :: s, plainChar x = true) :
    parseElems (g + 4)
      ('\x7b' :: '"' :: 'x' :: '"' :: ':' :: ' ' :: '"' :: '\\' :: '\\' :: c ::
        (s ++ ['"', '\x7d', ']'])) =
      some ([Json.obj [("x", Json.str (String.mk ('\\' :: c :: s)))]], []) := by
  have ho := o4_ok g c s h
  show (match parseValue (g + 3)
          ('\x7b' :: '"' :: 'x' :: '"' :: ':' :: ' ' :: '"' :: '\\' :: '\\' :: c ::
            (s ++ ['"', '\x7d', ']'])) with
        | none => none
        | some (v, r) =>
          match dropWs r with
          | ',' :: r2 =>
            match parseElems (g + 3) (dropWs r2) with
            | some (vs, r3) => some (v :: vs, r3)
            | none => none
          | ']' :: r2 => some ([v], r2)
          | _ => none)
      = some ([Json.obj [("x", Json.str (String.mk ('\\' :: c :: s)))]], [])
  rw [ho]
  rfl

theorem t4_ok (g : Nat) (c : Char) (s : List Char) (h : ∀ x ∈ c :: s, plainChar x = true) :
    parseValue (g + 5)
      ('[' :: '\x7b' :: '"' :: 'x' :: '"' :: ':' :: ' ' :: '"' :: '\\' :: '\\' :: c ::
        (s ++ ['"', '\x7d', ']'])) =
      some (.arr [Json.obj [("x", Json.str (String.mk ('\\' :: c :: s)))]], []) := by
  have he := e4_ok g c s h
  show (match parseElems (g + 4)
          ('\x7b' :: '"' :: 'x' :: '"' :: ':' :: ' ' :: '"' :: '\\' :: '\\' :: c ::
            (s ++ ['"', '\x7d', ']'])) with
        | some (vs, rest) => some (Json.arr vs, rest)
        | none => none)
      = some (Json.arr [Json.obj [("x", Json.str (String.mk ('\\' :: c :: s)))]], [])
  rw [he]
theorem okEscNext_false_of_escClass {c : Char} (h : escClassChar c = false)
    (r : List Char) : okEscNext (c :: r) = false := by
  have hu : c ≠ 'u' := escClass_ne h (show escClassChar 'u' = true from rfl)
  show (escClassChar c
    || (decide (c = 'u') &&
        (match r with
         | h1 :: h2 :: h3 :: h4 :: _ => isHexC h1 && isHexC h2 && isHexC h3 && isHexC h4
         | _ => false))) = false
  rw [h, decide_eq_false hu]
  rfl

theorem frameC4_no_tick : ∀ c ∈ frameC4, c ≠ '`' := by decide

theorem frameC4_no_bs : ∀ c ∈ frameC4, c ≠ '\\' := by decide

theorem c4_getLast (c : Char) (s : List Char) :
    (frameC4 ++ '\\' :: c :: (s ++ ['"', '\x7d', ']'])).getLast? = some ']' := by
  rw [List.getLast?_append_of_ne_nil _ (by simp),
    show '\\' :: c :: (s ++ ['"', '\x7d', ']'])
      = ('\\' :: c :: s) ++ ['"', '\x7d', ']'] from rfl,
    List.getLast?_append_of_ne_nil _ (by simp)]
  rfl

theorem trimC4_id (c : Char) (s : List Char) :
    trimList (frameC4 ++ '\\' :: c :: (s ++ ['"', '\x7d', ']'])) =
      frameC4 ++ '\\' :: c :: (s ++ ['"', '\x7d', ']']) :=
  trimList_eq_self (a := '[') (z := ']') rfl rfl (c4_getLast c s) rfl

theorem parseC4_strict_none (c : Char) (s : List Char) (hcp : plainChar c = true)
    (hce : escClassChar c = false) :
    parseJsonL (frameC4 ++ '\\' :: c :: (s ++ ['"', '\x7d', ']'])) = none := by
  unfold parseJsonL
  rw [trimC4_id c s]
  show (match parseValue
      (('[' :: '\x7b' :: '"' :: 'x' :: '"' :: ':' :: ' ' :: '"' :: '\\' :: c ::
        (s ++ ['"', '\x7d', ']'])).length + 1)
      ('[' :: '\x7b' :: '"' :: 'x' :: '"' :: ':' :: ' ' :: '"' :: '\\' :: c ::
        (s ++ ['"', '\x7d', ']'])) with
    | some (v, []) => some v
    | _ => none) = none
  rw [show ('[' :: '\x7b' :: '"' :: 'x' :: '"' :: ':' :: ' ' :: '"' :: '\\' :: c ::
      (s ++ ['"', '\x7d', ']'])).length + 1 = (s.length + 9) + 5 from by simp]
  rw [t4_none (s.length + 9) c (s ++ ['"', '\x7d', ']']) hcp hce]

theorem cleanC4 (c : Char) (s : List Char) (hcp : plainChar c = true)
    (hce : escClassChar c = false) (hs : ∀ x ∈ s, plainChar x = true) :
    cleanL (frameC4 ++ '\\' :: c :: (s ++ ['"', '\x7d', ']'])) =
      frameC4 ++ '\\' :: '\\' :: c :: (s ++ ['"', '\x7d', ']']) := by
  have hnt : ∀ x ∈ frameC4 ++ '\\' :: c :: (s ++ ['"', '\x7d', ']']), x ≠ '`' := by
    intro x hx
    rcases List.mem_append.mp hx with hx | hx
    · exact frameC4_no_tick x hx
    · rcases List.mem_cons.mp hx with rfl | hx
      · decide
      · rcases List.mem_cons.mp hx with rfl | hx
        · exact (plainChar_facts hcp).2.2.2.2.2.2.2.1
        · rcases List.mem_append.mp hx with hx | hx
          · exact (plainChar_facts (hs x hx)).2.2.2.2.2.2.2.1
          · rcases List.mem_cons.mp hx with rfl | hx
            · decide
            · rcases List.mem_cons.mp hx with rfl | hx
              · decide
              · rcases List.mem_cons.mp hx with rfl | hx
                · decide
                · simp at hx
  have hnb2 : ∀ x ∈ c :: (s ++ ['"', '\x7d', ']']), x ≠ '\\' := by
    intro x hx
    rcases List.mem_cons.mp hx with rfl | hx
    · exact (plainChar_facts hcp).2.1
    · rcases List.mem_append.mp hx with hx | hx
      · exact (plainChar_facts (hs x hx)).2.1
      · rcases List.mem_cons.mp hx with rfl | hx
        · decide
        · rcases List.mem_cons.mp hx with rfl | hx
          · decide
          · rcases List.mem_cons.mp hx with rfl | hx
            · decide
            · simp at hx
  have htriple := hasTriple_of_no_tick hnt
  have hfix : fixBackslashes (frameC4 ++ '\\' :: c :: (s ++ ['"', '\x7d', ']'])) =
      frameC4 ++ '\\' :: '\\' :: c :: (s ++ ['"', '\x7d', ']']) := by
    rw [fixBackslashes_append_noBS _ _ frameC4_no_bs]
    show frameC4 ++ (if okEscNext (c :: (s ++ ['"', '\x7d', ']'])) = true then
        '\\' :: fixBackslashes (c :: (s ++ ['"', '\x7d', ']']))
      else '\\' :: '\\' :: fixBackslashes (c :: (s ++ ['"', '\x7d', ']'])))
      = frameC4 ++ '\\' :: '\\' :: c :: (s ++ ['"', '\x7d', ']'])
    rw [okEscNext_false_of_escClass hce, if_neg (by simp), fixBackslashes_noBS _ hnb2]
  have hend : endsWithCloser (frameC4 ++ '\\' :: '\\' :: c :: (s ++ ['"', '\x7d', ']']))
      = true := by
    unfold endsWithCloser
    rw [List.getLast?_append_of_ne_nil _ (by simp),
      show '\\' :: '\\' :: c :: (s ++ ['"', '\x7d', ']'])
        = ('\\' :: '\\' :: c :: s) ++ ['"', '\x7d', ']'] from rfl,
      List.getLast?_append_of_ne_nil _ (by simp)]
    rfl
  unfold cleanL
  rw [stripTicksJson_id htriple, stripTicks_id htriple, trimC4_id c s]
  show (if (parseJsonL (frameC4 ++ '\\' :: c :: (s ++ ['"', '\x7d', ']']))).isSome = true
      then frameC4 ++ '\\' :: c :: (s ++ ['"', '\x7d', ']'])
      else if endsWithCloser
          (fixBackslashes (frameC4 ++ '\\' :: c :: (s ++ ['"', '\x7d', ']']))) = true
        then fixBackslashes (frameC4 ++ '\\' :: c :: (s ++ ['"', '\x7d', ']']))
        else repairTruncated (fixBackslashes (frameC4 ++ '\\' :: c :: (s ++ ['"', '\x7d', ']']))))
    = frameC4 ++ '\\' :: '\\' :: c :: (s ++ ['"', '\x7d', ']'])
  rw [parseC4_strict_none c s hcp hce]
  simp only [Option.isSome_none, Bool.false_eq_true, if_false]
  rw [hfix, hend, if_pos rfl]

theorem parseC4_fixed_ok (c : Char) (s : List Char) (h : ∀ x ∈ c :: s, plainChar x = true) :
    parseJsonL (frameC4 ++ '\\' :: '\\' :: c :: (s ++ ['"', '\x7d', ']'])) =
      some (.arr [.obj [("x", .str (String.mk ('\\' :: c :: s)))]]) := by
  have htrim : trimList (frameC4 ++ '\\' :: '\\' :: c :: (s ++ ['"', '\x7d', ']'])) =
      frameC4 ++ '\\' :: '\\' :: c :: (s ++ ['"', '\x7d', ']']) := by
    refine trimList_eq_self (a := '[') (z := ']') rfl rfl ?_ rfl
    rw [List.getLast?_append_of_ne_nil _ (by simp),
      show '\\' :: '\\' :: c :: (s ++ ['"', '\x7d', ']'])
        = ('\\' :: '\\' :: c :: s) ++ ['"', '\x7d', ']'] from rfl,
      List.getLast?_append_of_ne_nil _ (by simp)]
    rfl
  unfold parseJsonL
  rw [htrim]
  show (match parseValue
      (('[' :: '\x7b' :: '"' :: 'x' :: '"' :: ':' :: ' ' :: '"' :: '\\' :: '\\' :: c ::
        (s ++ ['"', '\x7d', ']'])).length + 1)
      ('[' :: '\x7b' :: '"' :: 'x' :: '"' :: ':' :: ' ' :: '"' :: '\\' :: '\\' :: c ::
        (s ++ ['"', '\x7d', ']'])) with
    | some (v, []) => some v
    | _ => none) = some (.arr [.obj [("x", .str (String.mk ('\\' :: c :: s)))]])
  rw [show ('[' :: '\x7b' :: '"' :: 'x' :: '"' :: ':' :: ' ' :: '"' :: '\\' :: '\\' :: c ::
      (s ++ ['"', '\x7d', ']'])).length + 1 = (s.length + 10) + 5 from by simp]
  rw [t4_ok (s.length + 10) c s h]

/-- Claim C4 (corrected): the backslash-fixing pass doubles exactly those
backslashes whose following text fails the source regex's lookahead — the
character class `[bfnrtu"\/]` or a four-hex-digit unicode escape; that class
omits the backslash itself (so the second backslash of `\\` is measured
against what follows it, and a `\\` pair gains extra doubling, unlike the
spec's JSON-legal-escape set, which contains the backslash) and contains
bare `u` (so `\u` is never doubled even without four hex digits). For the
family of inputs `[{"x": "\c s"}]` with `c` outside the class and `c` and
`s` sanitizer-inert, the strict parse fails, the backslash is doubled, and
the result parses to an array of one record whose field `x` holds the
literal text `\c s` — in particular `\alpha` survives verbatim. -/
theorem c4_backslash_escaping :
    (∀ l : List Char, fixBackslashes l = doubleSpec l) ∧
    (∀ c : Char, ∀ s : List Char, plainChar c = true → escClassChar c = false →
      (∀ x ∈ s, plainChar x = true) →
      cleanJSONResponse (String.mk (frameC4 ++ '\\' :: c :: (s ++ ['"', '\x7d', ']']))) =
        String.mk (frameC4 ++ '\\' :: '\\' :: c :: (s ++ ['"', '\x7d', ']'])) ∧
      parseJson (cleanJSONResponse (String.mk (frameC4 ++ '\\' :: c ::
          (s ++ ['"', '\x7d', ']'])))) =
        some (.arr [.obj [("x", .str (String.mk ('\\' :: c :: s)))]])) := by
  refine ⟨fixBackslashes_eq_doubleSpec, ?_⟩
  intro c s hcp hce hs
  have hclean : cleanJSONResponse (String.mk (frameC4 ++ '\\' :: c ::
      (s ++ ['"', '\x7d', ']']))) =
      String.mk (frameC4 ++ '\\' :: '\\' :: c :: (s ++ ['"', '\x7d', ']'])) := by
    unfold cleanJSONResponse
    rw [if_neg (show (String.mk (frameC4 ++ '\\' :: c :: (s ++ ['"', '\x7d', ']']))).data ≠ []
      from by simp [frameC4])]
    show String.mk (cleanL (frameC4 ++ '\\' :: c :: (s ++ ['"', '\x7d', ']']))) = _
    rw [cleanC4 c s hcp hce hs]
  refine ⟨hclean, ?_⟩
  rw [hclean]
  show parseJsonL (frameC4 ++ '\\' :: '\\' :: c :: (s ++ ['"', '\x7d', ']'])) = _
  refine parseC4_fixed_ok c s ?_
  intro x hx
  rcases List.mem_cons.mp hx with rfl | hx
  · exact hcp
  · exact hs x hx

/-- Claim C4 (counterexample): on the two-character input `\\` the spec's
doubling set (which contains the backslash) keeps the first backslash
single, but the source's class `[bfnrtu"\/]` omits the backslash, so the
code doubles it: the sanitizer turns `\\` into four backslashes where the
spec's rule produces three. -/
theorem c4_counterexample_escaped_backslash :
    specOkNext ['\\'] = true ∧
    okEscNext ['\\'] = false ∧
    specEscapeBackslashes ['\\', '\\'] = ['\\', '\\', '\\'] ∧
    fixBackslashes ['\\', '\\'] = ['\\', '\\', '\\', '\\'] ∧
    fixBackslashes ['\\', '\\'] ≠ specEscapeBackslashes ['\\', '\\'] ∧
    cleanJSONResponse "\\\\" = "\\\\\\\\" := by
  refine ⟨rfl, rfl, rfl, rfl, by decide, ?_⟩
  rfl

theorem c4_alpha_witness :
    cleanJSONResponse (String.mk (frameC4 ++ '\\' :: 'a' ::
        (['l', 'p', 'h', 'a'] ++ ['"', '\x7d', ']']))) =
      String.mk (frameC4 ++ '\\' :: '\\' :: 'a' :: (['l', 'p', 'h', 'a'] ++ ['"', '\x7d', ']'])) ∧
    parseJson (cleanJSONResponse (String.mk (frameC4 ++ '\\' :: 'a' ::
        (['l', 'p', 'h', 'a'] ++ ['"', '\x7d', ']'])))) =
      some (.arr [.obj [("x", .str (String.mk ('\\' :: 'a' :: ['l', 'p', 'h', 'a'])))]]) :=
  c4_backslash_escaping.2 'a' ['l', 'p', 'h', 'a'] (by decide) (by decide) (by decide)
